import Mathlib

/-!
Shallow embedding of `rbtree.c` (gregfjohnson/rbtree): a red-black tree
with parent pointers, stored in mutable heap cells.  The heap is modelled
as a list of optional node records (`none` = unallocated / freed cell);
a C pointer `rbtree_node_t *` is an `Option Nat` (a cell index, with
`none` for `NULL`).  Every C function is translated statement by
statement; loops and recursions that follow pointer chains take a fuel
argument that is instantiated with `nodes.length + 1` at call sites
(enough for any acyclic chain in the heap).
-/

namespace RBT

/-- One heap cell: the fields of `rbtree_node_t` (rbtree.h). -/
structure Node (α : Type) where
  data : α
  parent : Option Nat
  lchild : Option Nat
  rchild : Option Nat
  color : Char
deriving DecidableEq, Repr

/-- The tree state: the heap of node cells plus the `root` field of
`rbtree_t`.  (The comparator and allocator fields of `rbtree_t` are
modelled as explicit parameters of the operations.) -/
structure Tree (α : Type) where
  nodes : List (Option (Node α))
  root : Option Nat
deriving DecidableEq, Repr

variable {α : Type}

/-- Read the heap cell at index `i` (`none` when out of range or freed). -/
def load (t : Tree α) (i : Nat) : Option (Node α) :=
  t.nodes.getD i none

/-- Dereference a possibly-NULL pointer. -/
def deref (t : Tree α) (p : Option Nat) : Option (Node α) :=
  p.bind (load t)

/-- `parent` (rbtree.c): `node == NULL ? NULL : node->parent`. -/
def parent (t : Tree α) (node : Option Nat) : Option Nat :=
  match deref t node with
  | none => none
  | some n => n.parent

/-- `grandparent` (rbtree.c): `parent(parent(node))`. -/
def grandparent (t : Tree α) (node : Option Nat) : Option Nat :=
  parent t (parent t node)

/-- `is_left_child` (rbtree.c):
`parent(node) == NULL ? false : parent(node)->lchild == node`. -/
def is_left_child (t : Tree α) (node : Option Nat) : Bool :=
  match deref t (parent t node) with
  | none => false
  | some pn => pn.lchild == node

/-- `sibling` (rbtree.c): the other child of `node`'s parent. -/
def sibling (t : Tree α) (node : Option Nat) : Option Nat :=
  match deref t (parent t node) with
  | none => none
  | some pn => if is_left_child t node then pn.rchild else pn.lchild

/-- `is_inside_child` (rbtree.c):
`is_left_child(node) ^ is_left_child(parent(node))`. -/
def is_inside_child (t : Tree α) (node : Option Nat) : Bool :=
  xor (is_left_child t node) (is_left_child t (parent t node))

/-- `inside_child` (rbtree.c):
`node == NULL ? NULL : is_left_child(node) ? node->rchild : node->lchild`. -/
def inside_child (t : Tree α) (node : Option Nat) : Option Nat :=
  match deref t node with
  | none => none
  | some n => if is_left_child t node then n.rchild else n.lchild

/-- `outside_child` (rbtree.c):
`node == NULL ? NULL : is_left_child(node) ? node->lchild : node->rchild`. -/
def outside_child (t : Tree α) (node : Option Nat) : Option Nat :=
  match deref t node with
  | none => none
  | some n => if is_left_child t node then n.lchild else n.rchild

/-- `ankle` (rbtree.c): `sibling(parent(node))`. -/
def ankle (t : Tree α) (node : Option Nat) : Option Nat :=
  sibling t (parent t node)

/-- `near_nieph` (rbtree.c): `inside_child(sibling(node))`. -/
def near_nieph (t : Tree α) (node : Option Nat) : Option Nat :=
  inside_child t (sibling t node)

/-- `far_nieph` (rbtree.c): `outside_child(sibling(node))`. -/
def far_nieph (t : Tree α) (node : Option Nat) : Option Nat :=
  outside_child t (sibling t node)

/-- `is_red_node` (rbtree.c): `node == NULL ? false : node->color == 'r'`. -/
def is_red_node (t : Tree α) (node : Option Nat) : Bool :=
  match deref t node with
  | none => false
  | some n => n.color == 'r'

/-- `is_root_node` (rbtree.c): `node != NULL && parent(node) == NULL`. -/
def is_root_node (t : Tree α) (node : Option Nat) : Bool :=
  node.isSome && (parent t node).isNone

/-- The inner loop of `successor` (rbtree.c) when `node->rchild != NULL`,
also the loop body of `first_node`:
`while (result->lchild != NULL) result = result->lchild`. -/
def leftmost_loop (t : Tree α) : Nat → Nat → Nat
  | 0, i => i
  | fuel + 1, i =>
    match load t i with
    | none => i
    | some n =>
      match n.lchild with
      | none => i
      | some j => leftmost_loop t fuel j

/-- The other loop of `successor` (rbtree.c):
`while (result != NULL && !is_left_child(result)) result = parent(result)`. -/
def up_loop (t : Tree α) : Nat → Option Nat → Option Nat
  | 0, r => r
  | fuel + 1, r =>
    if r.isSome && !is_left_child t r then up_loop t fuel (parent t r) else r

/-- `successor` (rbtree.c): next node in sorted order:
leftmost node of the right subtree if there is one, else the nearest
ancestor reached from a left child. -/
def successor (t : Tree α) (node : Option Nat) : Option Nat :=
  match node with
  | none => none
  | some i =>
    match load t i with
    | none => none
    | some n =>
      match n.rchild with
      | some r => some (leftmost_loop t t.nodes.length r)
      | none => parent t (up_loop t t.nodes.length (some i))

/-- Update the heap cell at index `i` (no-op when the cell is absent,
matching the fact that all call sites hold a valid pointer). -/
def upd (t : Tree α) (i : Nat) (f : Node α → Node α) : Tree α :=
  { t with nodes := t.nodes.set i ((load t i).map f) }

/-- A C statement `x->color = c` (no-op on a NULL pointer; every call
site in rbtree.c holds a valid pointer there). -/
def setColor (t : Tree α) (node : Option Nat) (c : Char) : Tree α :=
  match node with
  | none => t
  | some i => upd t i (fun n => { n with color := c })

/-- A C statement `x->data = d`. -/
def setData (t : Tree α) (node : Option Nat) (d : α) : Tree α :=
  match node with
  | none => t
  | some i => upd t i (fun n => { n with data := d })

/-- `set_child` (rbtree.c): make `child` the left/right child of `node`
(or the tree root when `node == NULL`), and point `child->parent` back at
`node` when `child != NULL`.  The C function also returns `child`; call
sites below use the `child` argument directly instead. -/
def set_child (t : Tree α) (node : Option Nat) (child : Option Nat)
    (left_child : Bool) : Tree α :=
  let t1 :=
    match node with
    | none => { t with root := child }
    | some i =>
      upd t i (fun n =>
        if left_child then { n with lchild := child } else { n with rchild := child })
  match child with
  | none => t1
  | some j => upd t1 j (fun n => { n with parent := node })

/-- `rotateUpNode` (rbtree.c): the three `set_child` calls of the
structural rotation; `left_child`, `p`, `gp` are the locals computed
before any mutation, and `is_left_child(p)` in the second call is
evaluated against the heap after the first call, exactly as in C. -/
def rotateUpNode (t : Tree α) (node : Option Nat) : Tree α :=
  let left_child := is_left_child t node
  let p := parent t node
  let gp := grandparent t node
  let t1 := set_child t p (inside_child t node) left_child
  let t2 := set_child t1 gp node (is_left_child t1 p)
  set_child t2 node p (!left_child)

/-- `rotateUp` (rbtree.c): swap the colors of `node` and its parent,
then perform the structural rotation.  The C code dereferences both
`node` and its parent unconditionally (callers guarantee both exist);
when either is absent the model leaves the tree unchanged. -/
def rotateUp (t : Tree α) (node : Option Nat) : Tree α :=
  let p := parent t node
  match deref t p, deref t node with
  | some pn, some nn =>
    let t1 := setColor t p nn.color
    let t2 := setColor t1 node pn.color
    rotateUpNode t2 node
  | _, _ => t

/-- `rec_rbtree_find` (rbtree.c): binary search from `node` by the
comparator; fuel bounds the pointer chase (`none` at fuel 0 models the
nonterminating chase on a cyclic heap, which never arises). -/
def rec_rbtree_find (cmp : α → α → Int) (t : Tree α) :
    Nat → Option Nat → α → Option Nat
  | _, none, _ => none
  | 0, some _, _ => none
  | fuel + 1, some i, search =>
    match load t i with
    | none => none
    | some n =>
      let rel := cmp search n.data
      if rel = 0 then some i
      else if rel < 0 then rec_rbtree_find cmp t fuel n.lchild search
      else rec_rbtree_find cmp t fuel n.rchild search

/-- `rbtree_find` (rbtree.c): search and return the matching record.
The tree is threaded through so that its (un)modification is explicit. -/
def rbtree_find (cmp : α → α → Int) (t : Tree α) (vsearch : α) :
    Tree α × Option α :=
  match rec_rbtree_find cmp t (t.nodes.length + 1) t.root vsearch with
  | none => (t, none)
  | some i => (t, (load t i).map Node.data)

/-- `init_node` (rbtree.c): fresh node fields. -/
def init_node (d : α) : Node α :=
  { data := d, parent := none, lchild := none, rchild := none, color := 'r' }

/-- `new_node` (rbtree.c): `tree->malloc` plus `init_node`.  The success
of the external allocator is an input (`allocOk`); a successful
allocation returns a fresh cell appended to the heap. -/
def new_node (allocOk : Bool) (t : Tree α) (d : α) : Tree α × Option Nat :=
  if allocOk then
    ({ t with nodes := t.nodes ++ [some (init_node d)] }, some t.nodes.length)
  else (t, none)

/-- `tree_insert` (rbtree.c): walk down comparing `new_data` against
each node (strictly-less goes left, otherwise right), attach a new node
at the empty slot reached; the `node == NULL` case assigns the tree
root.  Returns the updated heap and the new node (or `none` on
allocation failure). -/
def tree_insert (cmp : α → α → Int) (allocOk : Bool) :
    Nat → Tree α → Option Nat → α → Tree α × Option Nat
  | _, t, none, new_data =>
    match new_node allocOk t new_data with
    | (t1, none) => (t1, none)
    | (t1, some j) => ({ t1 with root := some j }, some j)
  | 0, t, some _, _ => (t, none)
  | fuel + 1, t, some i, new_data =>
    match load t i with
    | none => (t, none)
    | some n =>
      if cmp new_data n.data < 0 then
        match n.lchild with
        | none =>
          match new_node allocOk t new_data with
          | (t1, none) => (t1, none)
          | (t1, some j) => (set_child t1 (some i) (some j) true, some j)
        | some l => tree_insert cmp allocOk fuel t (some l) new_data
      else
        match n.rchild with
        | none =>
          match new_node allocOk t new_data with
          | (t1, none) => (t1, none)
          | (t1, some j) => (set_child t1 (some i) (some j) false, some j)
        | some r => tree_insert cmp allocOk fuel t (some r) new_data

/-- `violatesRedProperty` (rbtree.c):
`is_red_node(node) && is_red_node(parent(node))`. -/
def violatesRedProperty (t : Tree α) (node : Option Nat) : Bool :=
  is_red_node t node && is_red_node t (parent t node)

/-- `restoreRedProperty` (rbtree.c): insertion repair; `fixme` is red
with a red parent.  Recursion toward the root is fuelled. -/
def restoreRedProperty : Nat → Tree α → Option Nat → Tree α
  | 0, t, _ => t
  | fuel + 1, t, fixme =>
    if is_root_node t (parent t fixme) then
      setColor t (parent t fixme) 'b'
    else if is_red_node t (ankle t fixme) then
      let t1 := setColor t (parent t fixme) 'b'
      let t2 := setColor t1 (ankle t1 fixme) 'b'
      let t3 := setColor t2 (grandparent t2 fixme) 'r'
      if violatesRedProperty t3 (grandparent t3 fixme) then
        restoreRedProperty fuel t3 (grandparent t3 fixme)
      else t3
    else
      let s :=
        if is_inside_child t fixme then
          let t1 := rotateUp t fixme
          (t1, outside_child t1 fixme)
        else (t, fixme)
      rotateUp s.1 (parent s.1 s.2)

/-- `rbtree_insert` (rbtree.c): ordered insert, then insertion repair if
the new node violates the red property.  Returns the record on success,
`none` when the allocation failed. -/
def rbtree_insert (cmp : α → α → Int) (allocOk : Bool) (t : Tree α) (v : α) :
    Tree α × Option α :=
  match tree_insert cmp allocOk (t.nodes.length + 1) t t.root v with
  | (t1, none) => (t1, none)
  | (t1, some x) =>
    let t2 :=
      if violatesRedProperty t1 (some x) then
        restoreRedProperty (t1.nodes.length + 1) t1 (some x)
      else t1
    (t2, some v)

/-- `restoreBlackProperty` (rbtree.c): deletion repair; the black-depth
of `fixme` is one less than that of its sibling.  Recursion toward the
root is fuelled. -/
def restoreBlackProperty : Nat → Tree α → Option Nat → Tree α
  | 0, t, _ => t
  | fuel + 1, t, fixme =>
    let t1 := if is_red_node t (sibling t fixme) then rotateUp t (sibling t fixme) else t
    if !is_red_node t1 (near_nieph t1 fixme) && !is_red_node t1 (far_nieph t1 fixme) then
      let t2 := setColor t1 (sibling t1 fixme) 'r'
      if is_red_node t2 (parent t2 fixme) then
        setColor t2 (parent t2 fixme) 'b'
      else if !is_root_node t2 (parent t2 fixme) then
        restoreBlackProperty fuel t2 (parent t2 fixme)
      else t2
    else
      let t2 := if !is_red_node t1 (far_nieph t1 fixme) then rotateUp t1 (near_nieph t1 fixme) else t1
      let t3 := rotateUp t2 (sibling t2 fixme)
      setColor t3 (ankle t3 fixme) 'b'

/-- `rbtree_delete` (rbtree.c): find the node, reduce the two-child case
by copying the successor's record, run deletion repair when removing a
black non-root node (after marking it with the sentinel `'w'`), splice
the node out, free its cell, and return the record found. -/
def rbtree_delete (cmp : α → α → Int) (t : Tree α) (v : α) :
    Tree α × Option α :=
  match rec_rbtree_find cmp t (t.nodes.length + 1) t.root v with
  | none => (t, none)
  | some di =>
    match load t di with
    | none => (t, none)
    | some dn =>
      let user_data := dn.data
      let td :=
        if dn.lchild.isSome && dn.rchild.isSome then
          let t1 :=
            match deref t (successor t (some di)) with
            | none => t
            | some sn => setData t (some di) sn.data
          match successor t1 (some di) with
          | none => (t1, di)
          | some si => (t1, si)
        else (t, di)
      let t2 :=
        if !is_root_node td.1 (some td.2) && !is_red_node td.1 (some td.2) then
          let tw := setColor td.1 (some td.2) 'w'
          restoreBlackProperty (tw.nodes.length + 1) tw (some td.2)
        else td.1
      let childOrNull :=
        match load t2 td.2 with
        | none => none
        | some n2 => if n2.lchild.isSome then n2.lchild else n2.rchild
      let t3 := set_child t2 (parent t2 (some td.2)) childOrNull
                  (is_left_child t2 (some td.2))
      let t4 : Tree α := { t3 with nodes := t3.nodes.set td.2 none }
      (t4, some user_data)

/-- `first_node` (rbtree.c): leftmost node of the tree, `none` on an
empty tree. -/
def first_node (t : Tree α) : Option Nat :=
  match t.root with
  | none => none
  | some r => some (leftmost_loop t t.nodes.length r)

/-- The `rbtree_iter_t` state: the node to yield next (the tree it
belongs to is passed to `rbtree_iter_next` explicitly, standing for the
ambient heap the C code reads through the stored pointer). -/
structure Iter where
  next_node : Option Nat
deriving DecidableEq, Repr

/-- `rbtree_iter` (rbtree.c): iterator positioned at the first node. -/
def rbtree_iter (t : Tree α) : Iter :=
  { next_node := first_node t }

/-- `rbtree_iter_next` (rbtree.c): yield the current node's record and
advance via `successor`.  The heap is threaded through unchanged. -/
def rbtree_iter_next (t : Tree α) (iter : Iter) : Tree α × Iter × Option α :=
  match iter.next_node with
  | none => (t, iter, none)
  | some i =>
    match load t i with
    | none => (t, iter, none)
    | some n => (t, { next_node := successor t (some i) }, some n.data)

/-- `rbtree_first` (rbtree.c): smallest record, `none` on empty tree. -/
def rbtree_first (t : Tree α) : Tree α × Option α :=
  match first_node t with
  | none => (t, none)
  | some i => (t, (load t i).map Node.data)

/-- `rbtree_init` (rbtree.c): the empty tree. -/
def rbtree_init : Tree α :=
  { nodes := [], root := none }

/-! ### Abstraction: the colored binary tree spelled out by the heap -/

/-- A functional colored binary tree, the abstract value represented by
the pointer structure. -/
inductive CT (α : Type) where
  | nil : CT α
  | node (c : Char) (l : CT α) (d : α) (r : CT α) : CT α
deriving DecidableEq, Repr

/-- Read the colored tree hanging from pointer `p`, chasing child links
with fuel (enough fuel reads the whole tree on an acyclic heap). -/
def toCT (t : Tree α) : Nat → Option Nat → CT α
  | 0, _ => .nil
  | _, none => .nil
  | fuel + 1, some i =>
    match load t i with
    | none => .nil
    | some n => .node n.color (toCT t fuel n.lchild) n.data (toCT t fuel n.rchild)

/-- The colored tree reachable from the root of `t`. -/
def absT (t : Tree α) : CT α :=
  toCT t (t.nodes.length + 1) t.root

/-- In-order traversal of the abstract tree. -/
def inorder : CT α → List α
  | .nil => []
  | .node _ l d r => inorder l ++ d :: inorder r

/-- Is the root of this subtree a red node? -/
def isRedCT : CT α → Bool
  | .node c _ _ _ => c == 'r'
  | .nil => false

/-- The red property: no red node has a red parent; stated top-down as
"no red node has a red child", which is equivalent over a whole tree
(each red-red parent/child pair violates both formulations). -/
def noRedRed : CT α → Bool
  | .nil => true
  | .node c l _ r => (!(c == 'r') || (!isRedCT l && !isRedCT r)) && noRedRed l && noRedRed r

/-- Black-height check: `some n` iff every path from the root to an
absent descendant passes through exactly `n` black nodes, in every
subtree (the black property). -/
def bhOk : CT α → Option Nat
  | .nil => some 0
  | .node c l _ r =>
    match bhOk l, bhOk r with
    | some a, some b => if a = b then some (a + (if c = 'b' then 1 else 0)) else none
    | _, _ => none

/-- Every node's color is the public red or black (the transient
sentinel `'w'` of deletion, or anything else, is absent). -/
def colorsRB : CT α → Bool
  | .nil => true
  | .node c l _ r => (c == 'r' || c == 'b') && colorsRB l && colorsRB r

/-- The records stored in the allocated cells of the heap (heap order).
This is independent of the link structure of the tree. -/
def allocData (t : Tree α) : List α :=
  (t.nodes.filterMap id).map Node.data

/-- Drain the iterator, collecting the records it yields (fuelled). -/
def iterColl (t : Tree α) : Nat → Iter → List α
  | 0, _ => []
  | fuel + 1, it =>
    match rbtree_iter_next t it with
    | (_, _, none) => []
    | (_, it2, some d) => d :: iterColl t fuel it2

/-- The full iteration sequence of a tree: `rbtree_iter` followed by
repeated `rbtree_iter_next` until exhaustion. -/
def iterSeq (t : Tree α) : List α :=
  iterColl t (t.nodes.length + 1) (rbtree_iter t)

/-- The caller's comparator is a consistent total order: comparing in
the flipped argument order flips the sign, and non-strict comparison is
transitive. -/
structure CmpOk (cmp : α → α → Int) : Prop where
  flip : ∀ a b, cmp a b < 0 ↔ 0 < cmp b a
  le_trans : ∀ a b c, cmp a b ≤ 0 → cmp b c ≤ 0 → cmp a c ≤ 0

/-- Trees reachable from the empty tree by successful `rbtree_insert`
calls (the allocator succeeds) and successful `rbtree_delete` calls (a
record was found and removed). -/
inductive Reach (cmp : α → α → Int) : Tree α → Prop
  | init : Reach cmp rbtree_init
  | ins {t : Tree α} (v : α) : Reach cmp t → Reach cmp (rbtree_insert cmp true t v).1
  | del {t : Tree α} (v : α) : Reach cmp t → (rbtree_delete cmp t v).2 ≠ none →
      Reach cmp (rbtree_delete cmp t v).1

/-- A concrete well-formed red-black tree (all invariants hold: BST
order on the data `0..4`, parent consistency, red and black
properties): root `0` is black with children the red node `1` (whose
children `2`, `3` are black leaves) and the black leaf `4`. -/
def exTreeC3 : Tree Int :=
  { nodes := [some ⟨3, none, some 1, some 4, 'b'⟩,
              some ⟨1, some 0, some 2, some 3, 'r'⟩,
              some ⟨0, some 1, none, none, 'b'⟩,
              some ⟨2, some 1, none, none, 'b'⟩,
              some ⟨4, some 0, none, none, 'b'⟩],
    root := some 0 }

/-! ### Structural framework: the pointer structure as an address tree

An `ATree` records which heap cell sits at each position of the tree;
`Agree` states that the heap's `parent`/`lchild`/`rchild` links spell
out exactly that shape.  A position inside the tree is a context
(`ACtx`); `side = true` means the hole is the left child of the frame
node. -/

/-- Address-labelled binary tree: the shape of the pointer structure. -/
inductive ATree where
  | nil : ATree
  | node (i : Nat) (l r : ATree) : ATree
deriving DecidableEq, Repr

/-- The pointer to the root of an address tree. -/
def aroot : ATree → Option Nat
  | .nil => none
  | .node i _ _ => some i

/-- All addresses in an address tree. -/
def addrs : ATree → List Nat
  | .nil => []
  | .node i l r => i :: (addrs l ++ addrs r)

/-- Height of an address tree. -/
def aheight : ATree → Nat
  | .nil => 0
  | .node _ l r => max (aheight l) (aheight r) + 1

/-- A context: the part of an address tree around a hole.  In
`fr side i other k`, cell `i` is the hole's parent; `side = true` means
the hole is `i`'s left child and `other` is `i`'s right subtree. -/
inductive ACtx where
  | top : ACtx
  | fr (side : Bool) (i : Nat) (other : ATree) (k : ACtx) : ACtx
deriving DecidableEq, Repr

/-- Plug a subtree into a context's hole. -/
def aplug : ACtx → ATree → ATree
  | .top, s => s
  | .fr sd i o k, s => aplug k (if sd then .node i s o else .node i o s)

/-- The pointer the hole's parent link must contain. -/
def ctxParent : ACtx → Option Nat
  | .top => none
  | .fr _ i _ _ => some i

/-- All addresses on the context side. -/
def ctxAddrs : ACtx → List Nat
  | .top => []
  | .fr _ i o k => i :: (addrs o ++ ctxAddrs k)

/-- Number of frames of a context. -/
def depthA : ACtx → Nat
  | .top => 0
  | .fr _ _ _ k => depthA k + 1

/-- The heap spells out the address tree `a` below the expected parent
pointer `pp`: each node cell exists and its three links match. -/
inductive Agree (t : Tree α) : Option Nat → ATree → Prop
  | nil (pp : Option Nat) : Agree t pp .nil
  | node {pp : Option Nat} {i : Nat} {l r : ATree} (n : Node α) :
      load t i = some n → n.parent = pp →
      n.lchild = aroot l → n.rchild = aroot r →
      Agree t (some i) l → Agree t (some i) r →
      Agree t pp (.node i l r)

/-- The heap spells out the context `k` around a hole currently holding
a subtree rooted at pointer `h`. -/
inductive AgreeC (t : Tree α) : Option Nat → ACtx → Prop
  | top (h : Option Nat) : AgreeC t h .top
  | fr {h : Option Nat} {sd : Bool} {i : Nat} {o : ATree} {k : ACtx} (n : Node α) :
      load t i = some n → n.parent = ctxParent k →
      (if sd then n.lchild else n.rchild) = h →
      (if sd then n.rchild else n.lchild) = aroot o →
      Agree t (some i) o → AgreeC t (some i) k →
      AgreeC t h (.fr sd i o k)

/-- Addresses of a subtree, as a multiset. -/
def mAddrs (s : ATree) : Multiset Nat := (addrs s : Multiset Nat)

/-- Addresses of a context, as a multiset. -/
def mCtx (k : ACtx) : Multiset Nat := (ctxAddrs k : Multiset Nat)

/-- The subtree `s` is located at context `k` in the well-formed heap
`t`: the context and subtree agree with the heap, all addresses are
distinct, the tree root points at the plugged whole, and the allocated
cells are exactly the tree's cells. -/
structure Loc (t : Tree α) (k : ACtx) (s : ATree) : Prop where
  ctx : AgreeC t (aroot s) k
  sub : Agree t (ctxParent k) s
  nodup : Multiset.Nodup (mCtx k + mAddrs s)
  root_eq : t.root = aroot (aplug k s)
  alloc : ∀ i, (load t i).isSome = true ↔ i ∈ mCtx k + mAddrs s

/-- The heap `t` is a well-formed representation of the address tree
`a`. -/
def WfM (t : Tree α) (a : ATree) : Prop :=
  Loc t .top a

/-- The abstract colored tree read off the heap along an address
tree. -/
def absA (t : Tree α) : ATree → CT α
  | .nil => .nil
  | .node i l r =>
    match load t i with
    | none => .nil
    | some n => .node n.color (absA t l) n.data (absA t r)

/-! ### Abstract contexts over colored trees -/

/-- A context over colored trees: in `fr side c d other k` the hole's
parent carries color `c` and record `d`; `side = true` means the hole
is the left child and `other` the right sibling subtree. -/
inductive CtxC (α : Type) where
  | top : CtxC α
  | fr (side : Bool) (c : Char) (d : α) (other : CT α) (k : CtxC α) : CtxC α
deriving DecidableEq, Repr

/-- Plug a colored subtree into a colored context. -/
def plugC : CtxC α → CT α → CT α
  | .top, s => s
  | .fr sd c d o k, s => plugC k (if sd then .node c s d o else .node c o d s)

/-- The heap reads of the context cells, as a colored context.  (A
relation rather than a function so that missing cells need no default
value; under `AgreeC` it is functional.) -/
inductive AbsC (t : Tree α) : ACtx → CtxC α → Prop
  | top : AbsC t .top .top
  | fr {sd : Bool} {i : Nat} {o : ATree} {k : ACtx} {K : CtxC α} (n : Node α) :
      load t i = some n → AbsC t k K →
      AbsC t (.fr sd i o k) (.fr sd n.color n.data (absA t o) K)

/-- Is the frame directly above the hole red?  (`false` at top.) -/
def redTopC : CtxC α → Bool
  | .top => false
  | .fr _ c _ _ _ => c == 'r'

/-- Number of frames of a colored context. -/
def depthC : CtxC α → Nat
  | .top => 0
  | .fr _ _ _ _ k => depthC k + 1

/-- Black count contributed on the path from the tree root to (and
including) the hole's parent frames, accumulated onto a hole of black
height `n`: the black height of the whole tree. -/
def bhRootC : CtxC α → Nat → Nat
  | .top, n => n
  | .fr _ c _ _ k, n => bhRootC k (n + if c = 'b' then 1 else 0)

/-- The context is black-consistent for a hole of black height `n`:
each frame's sibling subtree has the matching black height. -/
def ctxOkB : CtxC α → Nat → Bool
  | .top, _ => true
  | .fr _ c _ o k, n => (bhOk o == some n) && ctxOkB k (n + if c = 'b' then 1 else 0)

/-- Red-red-freedom of the context: every sibling subtree is red-red
free, and a red frame has a non-red parent frame and a non-red sibling
subtree root.  (The hole's content is not constrained.) -/
def ctxNoRR : CtxC α → Bool
  | .top => true
  | .fr _ c _ o k =>
    noRedRed o && (!(c == 'r') || (!redTopC k && !isRedCT o)) && ctxNoRR k

/-- All context colors are the public red or black. -/
def ctxColorsRB : CtxC α → Bool
  | .top => true
  | .fr _ c _ o k => (c == 'r' || c == 'b') && colorsRB o && ctxColorsRB k

/-- In-order data of the context to the left of the hole. -/
def beforeC : CtxC α → List α
  | .top => []
  | .fr sd _ d o k => if sd then beforeC k else beforeC k ++ inorder o ++ [d]

/-- In-order data of the context to the right of the hole. -/
def afterC : CtxC α → List α
  | .top => []
  | .fr sd _ d o k => if sd then d :: inorder o ++ afterC k else afterC k

/-- A comparator on keyed records (key-tag pairs) that orders by the
key alone — a consistent total order under which distinct records can
compare equal, as the spec allows ("the tree may hold multiple records
that compare equal"). -/
def pcmp (a b : Int × Int) : Int := a.1 - b.1

/-- The tree built by inserting the record `(5, 0)` into the empty
tree. -/
def preTreeC7 : Tree (Int × Int) :=
  (rbtree_insert pcmp true rbtree_init (5, 0)).1

/-- The tree built by then inserting the record `(5, 1)`, whose key
compares equal to the already-stored record `(5, 0)`. -/
def exTreeC7 : Tree (Int × Int) :=
  (rbtree_insert pcmp true preTreeC7 (5, 1)).1

/-- The insertion walk as the spec describes it, on abstract colored
trees: walk from the root descending left when the new record compares
strictly less, right otherwise (ties go right), and attach a new red
node with empty subtrees at the empty position reached. -/
def insertCT (cmp : α → α → Int) (v : α) : CT α → CT α
  | .nil => .node 'r' .nil v .nil
  | .node c l d r =>
    if cmp v d < 0 then .node c (insertCT cmp v l) d r
    else .node c l d (insertCT cmp v r)

/-- The same walk on the address tree, with `nw` the fresh cell picked
for the new node (comparisons read the pre-insertion heap `t`). -/
def insA (cmp : α → α → Int) (v : α) (t : Tree α) (nw : Nat) : ATree → ATree
  | .nil => .node nw .nil .nil
  | .node i l r =>
    match load t i with
    | none => .nil
    | some n =>
      if cmp v n.data < 0 then .node i (insA cmp v t nw l) r
      else .node i l (insA cmp v t nw r)

/-! ### Helper lemmas -/

@[simp]
theorem mAddrs_nil : mAddrs .nil = 0 := rfl

@[simp]
theorem mAddrs_node (i : Nat) (l r : ATree) :
    mAddrs (.node i l r) = i ::ₘ (mAddrs l + mAddrs r) := by
  simp [mAddrs, addrs]

@[simp]
theorem mCtx_top : mCtx .top = 0 := rfl

@[simp]
theorem mCtx_fr (sd : Bool) (i : Nat) (o : ATree) (k : ACtx) :
    mCtx (.fr sd i o k) = i ::ₘ (mAddrs o + mCtx k) := by
  simp [mCtx, mAddrs, ctxAddrs]

theorem mem_mAddrs {j : Nat} {s : ATree} : j ∈ mAddrs s ↔ j ∈ addrs s := by
  simp [mAddrs]

@[simp]
theorem aplug_top (s : ATree) : aplug .top s = s := rfl

theorem mAddrs_aplug (k : ACtx) (s : ATree) :
    mAddrs (aplug k s) = mCtx k + mAddrs s := by
  induction k generalizing s with
  | top => simp
  | fr sd i o k ih =>
    cases sd <;>
      simp [aplug, ih, ← Multiset.singleton_add] <;> abel

theorem aroot_aplug_congr (k : ACtx) {s s' : ATree} (h : aroot s = aroot s') :
    aroot (aplug k s) = aroot (aplug k s') := by
  induction k generalizing s s' with
  | top => simpa using h
  | fr sd i o k ih =>
    cases sd <;> exact ih (by simp [aroot])

/-! Heap update basics -/

@[simp]
theorem upd_root (t : Tree α) (i : Nat) (f : Node α → Node α) :
    (upd t i f).root = t.root := rfl

@[simp]
theorem upd_length (t : Tree α) (i : Nat) (f : Node α → Node α) :
    (upd t i f).nodes.length = t.nodes.length := by
  simp [upd]

theorem load_getElem (t : Tree α) (j : Nat) : load t j = (t.nodes[j]?).getD none := by
  rw [load, List.getD_eq_getElem?_getD]

theorem load_upd (t : Tree α) (i j : Nat) (f : Node α → Node α) :
    load (upd t i f) j = if j = i then (load t i).map f else load t j := by
  simp only [load_getElem, upd, List.getElem?_set]
  by_cases h : i = j
  · subst h
    by_cases hl : i < t.nodes.length
    · simp [hl]
    · simp [hl, List.getElem?_eq_none (by omega : t.nodes.length ≤ i)]
  · rw [if_neg (by omega : ¬ j = i), if_neg h]

theorem load_upd_self (t : Tree α) (i : Nat) (f : Node α → Node α) :
    load (upd t i f) i = (load t i).map f := by
  simp [load_upd]

theorem load_upd_ne (t : Tree α) {i j : Nat} (f : Node α → Node α) (h : j ≠ i) :
    load (upd t i f) j = load t j := by
  simp [load_upd, h]

theorem load_isSome_upd (t : Tree α) (i j : Nat) (f : Node α → Node α) :
    (load (upd t i f) j).isSome = (load t j).isSome := by
  rw [load_upd]
  by_cases h : j = i <;> simp [h]

theorem load_root_irrel (t : Tree α) (x : Option Nat) (j : Nat) :
    load { t with root := x } j = load t j := rfl

/-! Congruence: predicates that only read certain cells -/

theorem agree_congr {t t' : Tree α} {pp : Option Nat} {a : ATree}
    (hA : Agree t pp a) (h : ∀ j ∈ addrs a, load t' j = load t j) :
    Agree t' pp a := by
  induction hA with
  | nil => exact .nil _
  | node n hload hp hl hr _ _ ihl ihr =>
    refine .node n ?_ hp hl hr ?_ ?_
    · rw [h _ (by simp [addrs])]
      exact hload
    · exact ihl (fun j hj => h j (by simp [addrs, hj]))
    · exact ihr (fun j hj => h j (by simp [addrs, hj]))

theorem agreeC_congr {t t' : Tree α} {h : Option Nat} {k : ACtx}
    (hK : AgreeC t h k) (hc : ∀ j ∈ ctxAddrs k, load t' j = load t j) :
    AgreeC t' h k := by
  induction hK with
  | top => exact .top _
  | fr n hload hp hh ho hagree _ ih =>
    refine .fr n ?_ hp hh ho ?_ ?_
    · rw [hc _ (by simp [ctxAddrs])]
      exact hload
    · exact agree_congr hagree (fun j hj => hc j (by simp [ctxAddrs, hj]))
    · exact ih (fun j hj => hc j (by simp [ctxAddrs, hj]))

theorem absA_congr {t t' : Tree α} {a : ATree}
    (h : ∀ j ∈ addrs a, load t' j = load t j) :
    absA t' a = absA t a := by
  induction a with
  | nil => rfl
  | node i l r ihl ihr =>
    simp only [absA]
    rw [h i (by simp [addrs]),
      ihl (fun j hj => h j (by simp [addrs, hj])),
      ihr (fun j hj => h j (by simp [addrs, hj]))]

/-! Transport along link-preserving updates (color and data writes) -/

/-- The link fields of a node. -/
def nlinks (n : Node α) : Option Nat × Option Nat × Option Nat :=
  (n.parent, n.lchild, n.rchild)

theorem agree_links {t t' : Tree α} {pp : Option Nat} {a : ATree}
    (hA : Agree t pp a)
    (h : ∀ j, (load t' j).map nlinks = (load t j).map nlinks) :
    Agree t' pp a := by
  induction hA with
  | nil => exact .nil _
  | node n hload hp hl hr _ _ ihl ihr =>
    rename_i pp2 i2 l2 r2 hal har
    have h2 := h i2
    rw [hload] at h2
    cases hld : load t' i2 with
    | none =>
      rw [hld] at h2
      simp at h2
    | some n' =>
      rw [hld] at h2
      simp only [Option.map_some', Option.some.injEq, nlinks, Prod.mk.injEq] at h2
      exact .node n' hld (h2.1.trans hp) (h2.2.1.trans hl) (h2.2.2.trans hr) ihl ihr

theorem agreeC_links {t t' : Tree α} {hh : Option Nat} {k : ACtx}
    (hK : AgreeC t hh k)
    (h : ∀ j, (load t' j).map nlinks = (load t j).map nlinks) :
    AgreeC t' hh k := by
  induction hK with
  | top => exact .top _
  | fr n hload hp hhp ho hagree _ ih =>
    rename_i hh2 sd2 i2 o2 k2 hctx2
    have h2 := h i2
    rw [hload] at h2
    cases hld : load t' i2 with
    | none =>
      rw [hld] at h2
      simp at h2
    | some n' =>
      rw [hld] at h2
      simp only [Option.map_some', Option.some.injEq, nlinks, Prod.mk.injEq] at h2
      refine .fr n' hld (h2.1.trans hp) ?_ ?_ (agree_links hagree h) ih
      · rw [← hhp]
        split
        · exact h2.2.1
        · exact h2.2.2
      · rw [← ho]
        split
        · exact h2.2.2
        · exact h2.2.1

/-! Inversion lemmas -/

theorem agree_node_inv {t : Tree α} {pp : Option Nat} {i : Nat} {l r : ATree}
    (h : Agree t pp (.node i l r)) :
    ∃ n, load t i = some n ∧ n.parent = pp ∧ n.lchild = aroot l ∧
      n.rchild = aroot r ∧ Agree t (some i) l ∧ Agree t (some i) r := by
  cases h with
  | node n hl hp hlc hrc ha hb => exact ⟨n, hl, hp, hlc, hrc, ha, hb⟩

theorem agreeC_fr_inv {t : Tree α} {h : Option Nat} {sd : Bool} {i : Nat}
    {o : ATree} {k : ACtx} (hk : AgreeC t h (.fr sd i o k)) :
    ∃ n, load t i = some n ∧ n.parent = ctxParent k ∧
      (if sd then n.lchild else n.rchild) = h ∧
      (if sd then n.rchild else n.lchild) = aroot o ∧
      Agree t (some i) o ∧ AgreeC t (some i) k := by
  cases hk with
  | fr n hl hp hh ho ha hc => exact ⟨n, hl, hp, hh, ho, ha, hc⟩

/-! Zoom and unzoom: moving the location focus down and up -/

theorem loc_zoomL {t : Tree α} {k : ACtx} {i : Nat} {l r : ATree}
    (h : Loc t k (.node i l r)) : Loc t (.fr true i r k) l := by
  obtain ⟨n, hload, hp, hl, hr, hal, har⟩ := agree_node_inv h.sub
  have hmset : mCtx (.fr true i r k) + mAddrs l = mCtx k + mAddrs (.node i l r) := by
    simp only [mCtx_fr, mAddrs_node, ← Multiset.singleton_add]
    abel
  refine ⟨?_, ?_, ?_, ?_, ?_⟩
  · exact .fr n hload hp (by simpa using hl) (by simpa using hr) har h.ctx
  · exact hal
  · rw [hmset]; exact h.nodup
  · rw [show aplug (.fr true i r k) l = aplug k (.node i l r) from rfl]
    exact h.root_eq
  · intro j
    rw [hmset]
    exact h.alloc j

theorem loc_zoomR {t : Tree α} {k : ACtx} {i : Nat} {l r : ATree}
    (h : Loc t k (.node i l r)) : Loc t (.fr false i l k) r := by
  obtain ⟨n, hload, hp, hl, hr, hal, har⟩ := agree_node_inv h.sub
  have hmset : mCtx (.fr false i l k) + mAddrs r = mCtx k + mAddrs (.node i l r) := by
    simp only [mCtx_fr, mAddrs_node, ← Multiset.singleton_add]
    abel
  refine ⟨?_, ?_, ?_, ?_, ?_⟩
  · exact .fr n hload hp (by simpa using hr) (by simpa using hl) hal h.ctx
  · exact har
  · rw [hmset]; exact h.nodup
  · rw [show aplug (.fr false i l k) r = aplug k (.node i l r) from rfl]
    exact h.root_eq
  · intro j
    rw [hmset]
    exact h.alloc j

theorem loc_unzoomL {t : Tree α} {k : ACtx} {i : Nat} {o s : ATree}
    (h : Loc t (.fr true i o k) s) : Loc t k (.node i s o) := by
  obtain ⟨n, hload, hp, hh, ho, hao, hck⟩ := agreeC_fr_inv h.ctx
  have hmset : mCtx k + mAddrs (.node i s o) = mCtx (.fr true i o k) + mAddrs s := by
    simp only [mCtx_fr, mAddrs_node, ← Multiset.singleton_add]
    abel
  refine ⟨?_, ?_, ?_, ?_, ?_⟩
  · simpa [aroot] using hck
  · exact .node n hload hp (by simpa using hh) (by simpa using ho) h.sub hao
  · rw [hmset]; exact h.nodup
  · rw [show aplug k (.node i s o) = aplug (.fr true i o k) s from rfl]
    exact h.root_eq
  · intro j
    rw [hmset]
    exact h.alloc j

theorem loc_unzoomR {t : Tree α} {k : ACtx} {i : Nat} {o s : ATree}
    (h : Loc t (.fr false i o k) s) : Loc t k (.node i o s) := by
  obtain ⟨n, hload, hp, hh, ho, hao, hck⟩ := agreeC_fr_inv h.ctx
  have hmset : mCtx k + mAddrs (.node i o s) = mCtx (.fr false i o k) + mAddrs s := by
    simp only [mCtx_fr, mAddrs_node, ← Multiset.singleton_add]
    abel
  refine ⟨?_, ?_, ?_, ?_, ?_⟩
  · simpa [aroot] using hck
  · exact .node n hload hp (by simpa using ho) (by simpa using hh) hao h.sub
  · rw [hmset]; exact h.nodup
  · rw [show aplug k (.node i o s) = aplug (.fr false i o k) s from rfl]
    exact h.root_eq
  · intro j
    rw [hmset]
    exact h.alloc j

/-! Evaluation of the structural queries at a located node -/

theorem parent_load {t : Tree α} {i : Nat} {n : Node α} (hl : load t i = some n) :
    parent t (some i) = n.parent := by
  simp [parent, deref, hl]

theorem is_red_node_load {t : Tree α} {i : Nat} {n : Node α} (hl : load t i = some n) :
    is_red_node t (some i) = (n.color == 'r') := by
  simp [is_red_node, deref, hl]

theorem loc_load {t : Tree α} {k : ACtx} {i : Nat} {l r : ATree}
    (h : Loc t k (.node i l r)) :
    ∃ n, load t i = some n ∧ n.parent = ctxParent k ∧
      n.lchild = aroot l ∧ n.rchild = aroot r := by
  obtain ⟨n, hload, hp, hl, hr, _, _⟩ := agree_node_inv h.sub
  exact ⟨n, hload, hp, hl, hr⟩

theorem loc_parent {t : Tree α} {k : ACtx} {i : Nat} {l r : ATree}
    (h : Loc t k (.node i l r)) : parent t (some i) = ctxParent k := by
  obtain ⟨n, hload, hp, _, _⟩ := loc_load h
  rw [parent_load hload, hp]

theorem loc_is_root {t : Tree α} {k : ACtx} {i : Nat} {l r : ATree}
    (h : Loc t k (.node i l r)) :
    is_root_node t (some i) = (ctxParent k).isNone := by
  simp [is_root_node, loc_parent h]

/-- The two parts of a disjointness split of the nodup multiset. -/
theorem loc_fr_disjoint {t : Tree α} {sd : Bool} {p : Nat} {o : ATree}
    {k : ACtx} {s : ATree} (h : Loc t (.fr sd p o k) s) :
    p ∉ mAddrs o ∧ p ∉ mCtx k ∧ p ∉ mAddrs s ∧
      (∀ j, j ∈ mAddrs o → j ∉ mAddrs s) := by
  have hn := h.nodup
  rw [mCtx_fr, Multiset.cons_add, Multiset.nodup_cons] at hn
  obtain ⟨hp, hrest⟩ := hn
  rw [add_assoc] at hrest
  rw [Multiset.nodup_add] at hrest
  refine ⟨fun hc => hp (by simp [hc]), fun hc => hp (by simp [hc]),
    fun hc => hp (by simp [hc]), ?_⟩
  intro j hjo hjs
  exact (Multiset.disjoint_left.mp hrest.2.2) hjo (by simp [hjs])

theorem loc_is_left_fr {t : Tree α} {sd : Bool} {p : Nat} {o : ATree}
    {k : ACtx} {i : Nat} {l r : ATree}
    (h : Loc t (.fr sd p o k) (.node i l r)) :
    is_left_child t (some i) = sd := by
  have hp := loc_parent h
  obtain ⟨pn, hpl, _, hps, hpo, _, _⟩ := agreeC_fr_inv h.ctx
  have hoi : aroot o ≠ some i := by
    obtain ⟨_, _, _, hdisj⟩ := loc_fr_disjoint h
    cases o with
    | nil => simp [aroot]
    | node j _ _ =>
      intro hji
      have hj : j = i := by simpa [aroot] using hji
      exact hdisj j (by simp [mem_mAddrs, addrs]) (by simp [mem_mAddrs, addrs, hj])
  unfold is_left_child
  rw [hp]
  show (match deref t (some p) with
    | none => false
    | some pn => pn.lchild == some i) = sd
  rw [show deref t (some p) = load t p from rfl, hpl]
  cases sd with
  | true => simp at hps; simp [hps, aroot]
  | false =>
    simp at hps hpo
    simp [hpo, hoi]

theorem loc_is_left_top {t : Tree α} {i : Nat} {l r : ATree}
    (h : Loc t .top (.node i l r)) : is_left_child t (some i) = false := by
  unfold is_left_child
  rw [loc_parent h]
  rfl

theorem loc_sibling_fr {t : Tree α} {sd : Bool} {p : Nat} {o : ATree}
    {k : ACtx} {i : Nat} {l r : ATree}
    (h : Loc t (.fr sd p o k) (.node i l r)) :
    sibling t (some i) = aroot o := by
  have hp := loc_parent h
  obtain ⟨pn, hpl, _, hps, hpo, _, _⟩ := agreeC_fr_inv h.ctx
  have hleft := loc_is_left_fr h
  unfold sibling
  rw [hp]
  show (match deref t (some p) with
    | none => none
    | some pn => if is_left_child t (some i) then pn.rchild else pn.lchild) = aroot o
  rw [show deref t (some p) = load t p from rfl, hpl, hleft]
  cases sd with
  | true => simpa using hpo
  | false => simpa using hpo

theorem loc_inside_child {t : Tree α} {sd : Bool} {p : Nat} {o : ATree}
    {k : ACtx} {i : Nat} {l r : ATree}
    (h : Loc t (.fr sd p o k) (.node i l r)) :
    inside_child t (some i) = (if sd then aroot r else aroot l) := by
  obtain ⟨n, hload, _, hl, hr⟩ := loc_load h
  have hleft := loc_is_left_fr h
  unfold inside_child
  rw [show deref t (some i) = load t i from rfl, hload, hleft]
  cases sd <;> simp [hl, hr]

theorem loc_outside_child {t : Tree α} {sd : Bool} {p : Nat} {o : ATree}
    {k : ACtx} {i : Nat} {l r : ATree}
    (h : Loc t (.fr sd p o k) (.node i l r)) :
    outside_child t (some i) = (if sd then aroot l else aroot r) := by
  obtain ⟨n, hload, _, hl, hr⟩ := loc_load h
  have hleft := loc_is_left_fr h
  unfold outside_child
  rw [show deref t (some i) = load t i from rfl, hload, hleft]
  cases sd <;> simp [hl, hr]

theorem absA_node {t : Tree α} {i : Nat} {l r : ATree} {n : Node α}
    (hl : load t i = some n) :
    absA t (.node i l r) = .node n.color (absA t l) n.data (absA t r) := by
  simp [absA, hl]

/-! Effects of the mutation primitives on loads, roots and locations -/

theorem setColor_some (t : Tree α) (i : Nat) (c : Char) :
    setColor t (some i) c = upd t i (fun n => { n with color := c }) := rfl

theorem setData_some (t : Tree α) (i : Nat) (d : α) :
    setData t (some i) d = upd t i (fun n => { n with data := d }) := rfl

theorem setColor_root (t : Tree α) (p : Option Nat) (c : Char) :
    (setColor t p c).root = t.root := by
  cases p <;> rfl

theorem setColor_length (t : Tree α) (p : Option Nat) (c : Char) :
    (setColor t p c).nodes.length = t.nodes.length := by
  cases p <;> simp [setColor]

theorem load_setColor (t : Tree α) (i : Nat) (c : Char) (j : Nat) :
    load (setColor t (some i) c) j =
      if j = i then (load t i).map (fun n => { n with color := c }) else load t j := by
  rw [setColor_some, load_upd]

theorem nlinks_setColor (t : Tree α) (p : Option Nat) (c : Char) (j : Nat) :
    (load (setColor t p c) j).map nlinks = (load t j).map nlinks := by
  cases p with
  | none => rfl
  | some i =>
    rw [load_setColor]
    by_cases h : j = i
    · subst h
      cases load t j <;> simp [nlinks]
    · simp [h]

theorem nlinks_setData (t : Tree α) (p : Option Nat) (d : α) (j : Nat) :
    (load (setData t p d) j).map nlinks = (load t j).map nlinks := by
  cases p with
  | none => rfl
  | some i =>
    rw [setData_some, load_upd]
    by_cases h : j = i
    · subst h
      cases load t j <;> simp [nlinks]
    · simp [h]

theorem isSome_of_nlinks {x y : Option (Node α)}
    (h : x.map nlinks = y.map nlinks) : x.isSome = y.isSome := by
  cases x <;> cases y <;> simp_all

/-- Transport a location along an update that preserves every cell's
links and the root (color and data writes). -/
theorem loc_links {t t' : Tree α} {k : ACtx} {s : ATree} (h : Loc t k s)
    (hl : ∀ j, (load t' j).map nlinks = (load t j).map nlinks)
    (hr : t'.root = t.root) : Loc t' k s := by
  refine ⟨agreeC_links h.ctx hl, agree_links h.sub hl, h.nodup,
    hr.trans h.root_eq, ?_⟩
  intro j
  rw [isSome_of_nlinks (hl j)]
  exact h.alloc j

theorem loc_setColor {t : Tree α} {k : ACtx} {s : ATree} (h : Loc t k s)
    (p : Option Nat) (c : Char) : Loc (setColor t p c) k s :=
  loc_links h (nlinks_setColor t p c) (setColor_root t p c)

theorem loc_setData {t : Tree α} {k : ACtx} {s : ATree} (h : Loc t k s)
    (p : Option Nat) (d : α) : Loc (setData t p d) k s := by
  refine loc_links h (nlinks_setData t p d) ?_
  cases p <;> rfl

theorem set_child_some_root (t : Tree α) (i : Nat) (c : Option Nat) (sd : Bool) :
    (set_child t (some i) c sd).root = t.root := by
  cases c <;> rfl

theorem set_child_none_root (t : Tree α) (c : Option Nat) (sd : Bool) :
    (set_child t none c sd).root = c := by
  cases c <;> rfl

theorem set_child_length (t : Tree α) (p c : Option Nat) (sd : Bool) :
    (set_child t p c sd).nodes.length = t.nodes.length := by
  cases p <;> cases c <;> simp [set_child]

theorem load_set_child_some (t : Tree α) (i : Nat) (c : Option Nat) (sd : Bool) (j : Nat) :
    load (set_child t (some i) c sd) j =
      (fun v1 => if c = some j then v1.map (fun n => { n with parent := some i }) else v1)
      (if j = i then
        (load t i).map (fun n =>
          if sd then { n with lchild := c } else { n with rchild := c })
       else load t j) := by
  cases c with
  | none =>
    show load (upd t i _) j = _
    rw [load_upd]
    simp
  | some jc =>
    show load (upd (upd t i _) jc _) j = _
    by_cases hj : j = jc
    · subst hj
      rw [load_upd]
      simp only [if_pos rfl, Option.some.injEq, if_pos rfl]
      by_cases hji : j = i <;> simp [hji, load_upd]
    · have hne : ¬ ((some jc : Option Nat) = some j) :=
        fun hh => hj (Option.some.inj hh).symm
      simp only [if_neg hne]
      rw [load_upd, if_neg hj, load_upd]

theorem load_set_child_none (t : Tree α) (c : Option Nat) (sd : Bool) (j : Nat) :
    load (set_child t none c sd) j =
      if c = some j then (load t j).map (fun n => { n with parent := none }) else load t j := by
  cases c with
  | none => rfl
  | some jc =>
    show load (upd { t with root := none } jc _) j = _
    by_cases hj : j = jc
    · subst hj
      rw [load_upd]
      simp [load_root_irrel]
    · have hne : ¬ ((some jc : Option Nat) = some j) :=
        fun hh => hj (Option.some.inj hh).symm
      rw [load_upd, if_neg hj, load_root_irrel, if_neg hne]

/-! Congruence for the abstract readings -/

theorem absC_congr {t t' : Tree α} {k : ACtx} {K : CtxC α}
    (h : AbsC t k K) (hc : ∀ j ∈ ctxAddrs k, load t' j = load t j) :
    AbsC t' k K := by
  induction h with
  | top => exact .top
  | fr n hload hk ih =>
    rename_i sd2 i2 o2 k2 K2
    have h1 : load t' i2 = some n := by
      rw [hc _ (by simp [ctxAddrs])]
      exact hload
    have h2 : absA t' o2 = absA t o2 :=
      absA_congr (fun j hj => hc j (by simp [ctxAddrs, hj]))
    have h3 : AbsC t' (.fr sd2 i2 o2 k2) (.fr sd2 n.color n.data (absA t' o2) K2) :=
      AbsC.fr n h1 (ih (fun j hj => hc j (by simp [ctxAddrs, hj])))
    rw [h2] at h3
    exact h3

theorem absA_aplug {t : Tree α} {k : ACtx} {K : CtxC α}
    (h : AbsC t k K) (s : ATree) :
    absA t (aplug k s) = plugC K (absA t s) := by
  induction h generalizing s with
  | top => rfl
  | fr n hload hk ih =>
    rename_i sd2 i2 o2 k2 K2
    cases sd2 with
    | true =>
      show absA t (aplug k2 (.node i2 s o2)) = _
      rw [ih]
      simp [plugC, absA_node hload]
    | false =>
      show absA t (aplug k2 (.node i2 o2 s)) = _
      rw [ih]
      simp [plugC, absA_node hload]

/-- Existence of the abstract context under agreement. -/
theorem absC_exists {t : Tree α} {h : Option Nat} {k : ACtx}
    (hk : AgreeC t h k) : ∃ K, AbsC t k K := by
  induction hk with
  | top => exact ⟨.top, .top⟩
  | fr n hload _ _ _ _ _ ih =>
    obtain ⟨K, hK⟩ := ih
    exact ⟨_, .fr n hload hK⟩

/-! Stored records are untouched by link and color surgery -/

theorem allocData_eq_of_data {t t' : Tree α}
    (hlen : t'.nodes.length = t.nodes.length)
    (h : ∀ j, (load t' j).map Node.data = (load t j).map Node.data) :
    allocData t' = allocData t := by
  have key : ∀ (l1 l2 : List (Option (Node α))), l1.length = l2.length →
      (∀ j, (l1.getD j none).map Node.data = (l2.getD j none).map Node.data) →
      (l1.filterMap id).map Node.data = (l2.filterMap id).map Node.data := by
    intro l1
    induction l1 with
    | nil =>
      intro l2 hl _
      cases l2 with
      | nil => rfl
      | cons b l2 => simp at hl
    | cons a l1 ih =>
      intro l2 hl hj
      cases l2 with
      | nil => simp at hl
      | cons b l2 =>
        have h0 := hj 0
        simp only [List.getD_cons_zero] at h0
        have ht := ih l2 (by simpa using hl)
          (fun j => by simpa [List.getD_cons_succ] using hj (j + 1))
        cases a with
        | none =>
          cases b with
          | none => simpa using ht
          | some nb => simp at h0
        | some na =>
          cases b with
          | none => simp at h0
          | some nb =>
            simp only [Option.map_some', Option.some.injEq] at h0
            simp [List.filterMap_cons, ht, h0]
  unfold allocData
  exact key _ _ hlen h

/-! Small facts used by the rotation and repair simulations -/

theorem aroot_ne_of_not_mem {s : ATree} {a : Nat} (h : a ∉ mAddrs s) :
    aroot s ≠ some a := by
  cases s with
  | nil => simp [aroot]
  | node j _ _ =>
    intro hj
    have hja : j = a := by simpa [aroot] using hj
    exact h (by simp [mem_mAddrs, addrs, hja])

theorem is_left_child_eval {t : Tree α} {i pnode : Nat} {pn : Node α}
    (hp : parent t (some i) = some pnode) (hl : load t pnode = some pn) :
    is_left_child t (some i) = (pn.lchild == some i) := by
  unfold is_left_child
  rw [hp]
  show (match deref t (some pnode) with
    | none => false
    | some pn => pn.lchild == some i) = _
  rw [show deref t (some pnode) = load t pnode from rfl, hl]

theorem is_left_child_none_parent {t : Tree α} {i : Nat}
    (h : parent t (some i) = none) : is_left_child t (some i) = false := by
  unfold is_left_child
  rw [h]
  rfl

theorem aroot_aplug_fr (sd : Bool) (i : Nat) (o : ATree) (k : ACtx)
    (s s' : ATree) :
    aroot (aplug (.fr sd i o k) s) = aroot (aplug (.fr sd i o k) s') := by
  cases sd <;> exact aroot_aplug_congr k rfl

/-- `absA` only reads colors and data. -/
theorem absA_congr_cd {t t' : Tree α} {a : ATree}
    (h : ∀ j ∈ addrs a, (load t' j).map (fun n => (n.color, n.data)) =
      (load t j).map (fun n => (n.color, n.data))) :
    absA t' a = absA t a := by
  induction a with
  | nil => rfl
  | node i l r ihl ihr =>
    have hi := h i (by simp [addrs])
    cases hld : load t i with
    | none =>
      rw [hld] at hi
      cases hld' : load t' i with
      | none => simp [absA, hld, hld']
      | some n' => rw [hld'] at hi; simp at hi
    | some n =>
      rw [hld] at hi
      cases hld' : load t' i with
      | none => rw [hld'] at hi; simp at hi
      | some n' =>
        rw [hld'] at hi
        simp only [Option.map_some', Option.some.injEq, Prod.mk.injEq] at hi
        rw [absA_node hld', absA_node hld, hi.1, hi.2,
          ihl (fun j hj => h j (by simp [addrs, hj])),
          ihr (fun j hj => h j (by simp [addrs, hj]))]

/-- `AbsC` only reads colors and data of the context cells. -/
theorem absC_congr_cd {t t' : Tree α} {k : ACtx} {K : CtxC α}
    (h : AbsC t k K)
    (hc : ∀ j ∈ ctxAddrs k, (load t' j).map (fun n => (n.color, n.data)) =
      (load t j).map (fun n => (n.color, n.data))) :
    AbsC t' k K := by
  induction h with
  | top => exact .top
  | fr n hload hk ih =>
    rename_i sd2 i2 o2 k2 K2
    have hi := hc i2 (by simp [ctxAddrs])
    rw [hload] at hi
    cases hld' : load t' i2 with
    | none => rw [hld'] at hi; simp at hi
    | some n' =>
      rw [hld'] at hi
      simp only [Option.map_some', Option.some.injEq, Prod.mk.injEq] at hi
      have h2 : absA t' o2 = absA t o2 :=
        absA_congr_cd (fun j hj => hc j (by simp [ctxAddrs, hj]))
      have h3 : AbsC t' (.fr sd2 i2 o2 k2) (.fr sd2 n'.color n'.data (absA t' o2) K2) :=
        AbsC.fr n' hld' (ih (fun j hj => hc j (by simp [ctxAddrs, hj])))
      rw [h2, hi.1, hi.2] at h3
      exact h3

/-- Rebuild agreement for a subtree whose root cell had only its parent
pointer rewritten (all other cells untouched). -/
theorem agree_reparent {t t' : Tree α} {s : ATree} {pp pp' : Option Nat}
    (hA : Agree t pp s)
    (hroot : ∀ j, aroot s = some j →
      load t' j = (load t j).map (fun n => { n with parent := pp' }))
    (hrest : ∀ j ∈ addrs s, aroot s ≠ some j → load t' j = load t j)
    (hnd : Multiset.Nodup (mAddrs s)) :
    Agree t' pp' s := by
  cases s with
  | nil => exact .nil _
  | node j0 l r =>
    obtain ⟨n0, hl0, _, hlc, hrc, hal, har⟩ := agree_node_inv hA
    have hj0 : load t' j0 = some { n0 with parent := pp' } := by
      rw [hroot j0 rfl, hl0]
      rfl
    have hnd2 : j0 ∉ mAddrs l + mAddrs r := by
      rw [mAddrs_node, Multiset.nodup_cons] at hnd
      exact hnd.1
    have huntouched : ∀ j, j ∈ addrs l ∨ j ∈ addrs r → load t' j = load t j := by
      intro j hj
      refine hrest j (by simp [addrs]; tauto) ?_
      simp only [aroot, Option.some.injEq]
      intro hj0j
      apply hnd2
      rw [Option.some.inj hj0j]
      rcases hj with hj | hj <;> simp [mem_mAddrs, hj]
    exact .node _ hj0 rfl hlc hrc
      (agree_congr hal (fun j hj => huntouched j (Or.inl hj)))
      (agree_congr har (fun j hj => huntouched j (Or.inr hj)))

/-- When the allocator fails, `tree_insert` returns `NULL` and leaves
the tree untouched, on every branch of the descent. -/
theorem tree_insert_fail (cmp : α → α → Int) :
    ∀ (fuel : Nat) (t : Tree α) (p : Option Nat) (v : α),
      tree_insert cmp false fuel t p v = (t, none) := by
  intro fuel
  induction fuel with
  | zero =>
    intro t p v
    cases p <;> rfl
  | succ n ih =>
    intro t p v
    cases p with
    | none => rfl
    | some i =>
      show tree_insert cmp false (n + 1) t (some i) v = (t, none)
      unfold tree_insert
      cases h : load t i with
      | none => rfl
      | some nd =>
        by_cases hc : cmp v nd.data < 0
        · simp only [hc, if_true]
          cases hl : nd.lchild with
          | none => rfl
          | some l => exact ih t (some l) v
        · simp only [hc, if_false]
          cases hr : nd.rchild with
          | none => rfl
          | some r => exact ih t (some r) v

/-! ### Claims -/

/-- C6: if the node allocation fails during `rbtree_insert`, the
operation returns the allocation-failure signal (`none`, modelling
NULL) and the tree is left completely unmodified — same heap (so no
node links or colors changed) and same root pointer. -/
theorem C6_alloc_failure_unmodified (cmp : α → α → Int) (t : Tree α) (v : α) :
    rbtree_insert cmp false t v = (t, none) := by
  unfold rbtree_insert
  rw [tree_insert_fail]

/-- C8: every structural-query function is total and null-propagating:
on an absent input node, the relationship-returning functions
(`parent`, `grandparent`, `sibling`, `inside_child`, `outside_child`,
`ankle`, `near_nieph`, `far_nieph`, `successor`) return absent, and the
boolean predicates (`is_left_child`, `is_red_node`, `is_root_node`,
`is_inside_child`) return false. -/
theorem C8_null_propagation (t : Tree α) :
    parent t none = none ∧ grandparent t none = none ∧
    sibling t none = none ∧ inside_child t none = none ∧
    outside_child t none = none ∧ ankle t none = none ∧
    near_nieph t none = none ∧ far_nieph t none = none ∧
    successor t none = none ∧ is_left_child t none = false ∧
    is_red_node t none = false ∧ is_root_node t none = false ∧
    is_inside_child t none = false :=
  ⟨rfl, rfl, rfl, rfl, rfl, rfl, rfl, rfl, rfl, rfl, rfl, rfl, rfl⟩

/-- C10: `rbtree_find`, `rbtree_first` and `rbtree_iter_next` leave the
tree completely unchanged: the returned state — heap (every node's
record, color, parent and child links) and root pointer — is the input
state.  (The comparator and allocator are explicit parameters in this
model, so they cannot change.) -/
theorem C10_queries_frame (cmp : α → α → Int) (t : Tree α) (v : α) (it : Iter) :
    (rbtree_find cmp t v).1 = t ∧ (rbtree_first t).1 = t ∧
    (rbtree_iter_next t it).1 = t := by
  refine ⟨?_, ?_, ?_⟩
  · unfold rbtree_find
    cases rec_rbtree_find cmp t (t.nodes.length + 1) t.root v <;> rfl
  · unfold rbtree_first
    cases first_node t <;> rfl
  · unfold rbtree_iter_next
    split
    · rfl
    · split <;> rfl

/-- C3 counterexample: on the well-formed red-black tree `exTreeC3`
(red property and black property hold, black-height 2), rotating up
node `2` — a black node whose parent (node `1`) is red — changes the
black-height structure of the overall tree: afterwards the tree has no
well-defined black-height at all (paths to absent descendants pass
through differing numbers of black nodes).  So `rotate_up` does not
preserve the black-height of the overall tree for every node that has a
parent; the source's own comment states the guarantee only "if input
node is red". -/
theorem C3_counterexample :
    parent exTreeC3 (some 2) = some 1 ∧
    noRedRed (absT exTreeC3) = true ∧
    bhOk (absT exTreeC3) = some 2 ∧
    bhOk (absT (rotateUp exTreeC3 (some 2))) = none := by
  refine ⟨rfl, rfl, ?_, ?_⟩ <;> decide

/-- C7 counterexample: under the consistent total-order comparator
`pcmp` (ordering keyed records by key only), on the reachable tree
`preTreeC7` holding the record `(5, 0)`: inserting the record `(5, 1)`
succeeds, but immediately finding by the same key returns the other
equal-comparing record `(5, 0)`, not the inserted record; and after
deleting by that key, finding returns a record (`(5, 1)`), not
not-found. -/
theorem C7_counterexample :
    (rbtree_insert pcmp true preTreeC7 (5, 1)).2 = some (5, 1) ∧
    (rbtree_find pcmp exTreeC7 (5, 1)).2 = some (5, 0) ∧
    (rbtree_find pcmp (rbtree_delete pcmp exTreeC7 (5, 1)).1 (5, 1)).2 = some (5, 1) := by
  refine ⟨?_, ?_, ?_⟩ <;> decide

theorem aroot_mem {s : ATree} {j : Nat} (h : aroot s = some j) : j ∈ mAddrs s := by
  cases s with
  | nil => simp [aroot] at h
  | node i _ _ =>
    simp only [aroot, Option.some.injEq] at h
    simp [h]

theorem rotateUp_simL {t : Tree α} {k : ACtx} {p x : Nat} {xl xr pr : ATree}
    {pn xn : Node α}
    (h : Loc t k (.node p (.node x xl xr) pr))
    (hpl : load t p = some pn) (hxld : load t x = some xn) :
    Loc (rotateUp t (some x)) k (.node x xl (.node p xr pr)) ∧
    (∀ j, (load (rotateUp t (some x)) j).map Node.data = (load t j).map Node.data) ∧
    (∀ j, (load (rotateUp t (some x)) j).isSome = (load t j).isSome) ∧
    (∀ j, j ≠ x → j ≠ p →
      (load (rotateUp t (some x)) j).map (fun n => (n.color, n.data)) =
        (load t j).map (fun n => (n.color, n.data))) ∧
    load (rotateUp t (some x)) x =
      some { xn with color := pn.color, parent := ctxParent k, rchild := some p } ∧
    load (rotateUp t (some x)) p =
      some { pn with color := xn.color, parent := some x, lchild := aroot xr } ∧
    (rotateUp t (some x)).nodes.length = t.nodes.length ∧
    (∀ j, j ≠ x → j ≠ p → aroot xr ≠ some j → ctxParent k ≠ some j →
      load (rotateUp t (some x)) j = load t j) := by
  -- field facts for p and x
  obtain ⟨pn2, hpl2, hpp, hplc, hprc⟩ := loc_load h
  rw [hpl] at hpl2
  have hpe : pn = pn2 := Option.some.inj hpl2
  subst hpe
  have hxlocA : Loc t (.fr true p pr k) (.node x xl xr) := loc_zoomL h
  obtain ⟨xn2, hxld2, hxp, hxlc, hxrc⟩ := loc_load hxlocA
  rw [hxld] at hxld2
  have hxe : xn = xn2 := Option.some.inj hxld2
  subst hxe
  have hxp2 : xn.parent = some p := hxp
  have hplc2 : pn.lchild = some x := hplc
  -- distinctness
  have hd1 := loc_fr_disjoint hxlocA
  have hpx : p ≠ x := fun he => hd1.2.2.1 (by simp [he])
  have hxlocR : Loc t (.fr false x xl (.fr true p pr k)) xr := loc_zoomR hxlocA
  have hd2 := loc_fr_disjoint hxlocR
  have hp_nxr : p ∉ mAddrs xr := fun hc => hd1.2.2.1 (by simp [hc])
  have hp_nxl : p ∉ mAddrs xl := fun hc => hd1.2.2.1 (by simp [hc])
  have hxr_ne_x : aroot xr ≠ some x := aroot_ne_of_not_mem hd2.2.2.1
  have hxr_ne_p : aroot xr ≠ some p := aroot_ne_of_not_mem hp_nxr
  have hxrnodup : (mAddrs xr).Nodup := by
    have := hxlocR.nodup
    rw [Multiset.nodup_add] at this
    exact this.2.1
  -- the subtree agreements we will transport
  obtain ⟨_, _, _, _, _, haxl, haxr⟩ := agree_node_inv hxlocA.sub
  obtain ⟨_, _, _, _, _, _, hapr⟩ := agree_node_inv h.sub
  -- step 1: the color swap
  have hparx : parent t (some x) = some p := by
    rw [parent_load hxld]; exact hxp2
  have hrw1 : rotateUp t (some x) =
      rotateUpNode (setColor (setColor t (some p) xn.color) (some x) pn.color) (some x) := by
    simp only [rotateUp, hparx, deref, Option.some_bind, hpl, hxld]
  set t2 : Tree α := setColor (setColor t (some p) xn.color) (some x) pn.color with ht2
  have h2x : load t2 x = some { xn with color := pn.color } := by
    rw [ht2, load_setColor, if_pos rfl, load_setColor,
      if_neg (fun he : x = p => hpx he.symm), hxld]
    rfl
  have h2p : load t2 p = some { pn with color := xn.color } := by
    rw [ht2, load_setColor, if_neg (fun he : p = x => hpx he), load_setColor,
      if_pos rfl, hpl]
    rfl
  have h2rest : ∀ j, j ≠ x → j ≠ p → load t2 j = load t j := by
    intro j hjx hjp
    rw [ht2, load_setColor, if_neg hjx, load_setColor, if_neg hjp]
  have h2root : t2.root = t.root := by
    rw [ht2, setColor_root, setColor_root]
  have h2len : t2.nodes.length = t.nodes.length := by
    rw [ht2, setColor_length, setColor_length]
  have h2loc : Loc t2 k (.node p (.node x xl xr) pr) :=
    loc_setColor (loc_setColor h (some p) xn.color) (some x) pn.color
  -- step 2: evaluate the rotation's reads
  have h2parx : parent t2 (some x) = some p := by
    rw [parent_load h2x]; exact hxp2
  have h2parp : parent t2 (some p) = ctxParent k := by
    rw [parent_load h2p]; exact hpp
  have h2left : is_left_child t2 (some x) = true := by
    rw [is_left_child_eval h2parx h2p]
    show (pn.lchild == some x) = true
    rw [hplc2]
    simp
  have h2gp : grandparent t2 (some x) = ctxParent k := by
    unfold grandparent
    rw [h2parx, h2parp]
  have h2inside : inside_child t2 (some x) = aroot xr := by
    unfold inside_child
    rw [show deref t2 (some x) = load t2 x from rfl, h2x]
    show (if is_left_child t2 (some x) then xn.rchild else xn.lchild) = aroot xr
    rw [h2left]
    simp [hxrc]
  have hrw2 : rotateUpNode t2 (some x) =
      set_child (set_child (set_child t2 (some p) (aroot xr) true) (ctxParent k)
        (some x) (is_left_child (set_child t2 (some p) (aroot xr) true) (some p)))
        (some x) (some p) false := by
    simp only [rotateUpNode, h2left, h2parx, h2gp, h2inside, Bool.not_true]
  set t3 : Tree α := set_child t2 (some p) (aroot xr) true with ht3
  have h3p : load t3 p = some { pn with color := xn.color, lchild := aroot xr } := by
    rw [ht3, load_set_child_some]
    simp only [if_pos rfl, if_neg hxr_ne_p]
    rw [h2p]
    rfl
  have h3x : load t3 x = some { xn with color := pn.color } := by
    rw [ht3, load_set_child_some]
    simp only [if_neg (fun he : x = p => hpx he.symm), if_neg hxr_ne_x]
    exact h2x
  have h3xr : ∀ j, aroot xr = some j →
      load t3 j = (load t j).map (fun n => { n with parent := some p }) := by
    intro j hj
    have hjx : j ≠ x := fun he => hxr_ne_x (he ▸ hj)
    have hjp : j ≠ p := fun he => hxr_ne_p (he ▸ hj)
    rw [ht3, load_set_child_some]
    simp only [if_pos hj, if_neg hjp]
    rw [h2rest j hjx hjp]
  have h3rest : ∀ j, j ≠ x → j ≠ p → aroot xr ≠ some j → load t3 j = load t2 j := by
    intro j hjx hjp hjxr
    rw [ht3, load_set_child_some]
    simp only [if_neg hjxr, if_neg hjp]
  have h3root : t3.root = t.root := by
    rw [ht3, set_child_some_root, h2root]
  have h3len : t3.nodes.length = t.nodes.length := by
    rw [ht3, set_child_length, h2len]
  have h3parp : parent t3 (some p) = ctxParent k := by
    rw [parent_load h3p]
    exact hpp
  rw [hrw1, hrw2]
  cases k with
  | top =>
    have hsd3 : is_left_child t3 (some p) = false :=
      is_left_child_none_parent (by rw [h3parp]; rfl)
    rw [hsd3]
    simp only [ctxParent]
    set t4 : Tree α := set_child t3 none (some x) false with ht4
    set t5 : Tree α := set_child t4 (some x) (some p) false with ht5
    have h4x : load t4 x = some { xn with color := pn.color, parent := none } := by
      rw [ht4, load_set_child_none, if_pos rfl, h3x]
      rfl
    have h4rest : ∀ j, j ≠ x → load t4 j = load t3 j := by
      intro j hjx
      rw [ht4, load_set_child_none,
        if_neg (fun he => hjx (Option.some.inj he).symm)]
    have h4root : t4.root = some x := by rw [ht4, set_child_none_root]
    have h4len : t4.nodes.length = t.nodes.length := by
      rw [ht4, set_child_length, h3len]
    have h5x : load t5 x =
        some { xn with color := pn.color, parent := none, rchild := some p } := by
      rw [ht5, load_set_child_some]
      simp only [if_pos rfl,
        if_neg (show ¬((some p : Option Nat) = some x) from
          fun he => hpx (Option.some.inj he))]
      rw [h4x]
      rfl
    have h5p : load t5 p =
        some { pn with color := xn.color, lchild := aroot xr, parent := some x } := by
      rw [ht5, load_set_child_some]
      simp only [if_pos rfl, if_neg (fun he : p = x => hpx he)]
      rw [h4rest p (fun he => hpx he), h3p]
      rfl
    have h5xr : ∀ j, aroot xr = some j →
        load t5 j = (load t j).map (fun n => { n with parent := some p }) := by
      intro j hj
      have hjx : j ≠ x := fun he => hxr_ne_x (he ▸ hj)
      have hjp : j ≠ p := fun he => hxr_ne_p (he ▸ hj)
      rw [ht5, load_set_child_some]
      simp only [if_neg (show ¬((some p : Option Nat) = some j) from
        fun he => hjp (Option.some.inj he).symm), if_neg hjx]
      rw [h4rest j hjx, h3xr j hj]
    have h5rest : ∀ j, j ≠ x → j ≠ p → aroot xr ≠ some j → load t5 j = load t j := by
      intro j hjx hjp hjxr
      rw [ht5, load_set_child_some]
      simp only [if_neg (show ¬((some p : Option Nat) = some j) from
        fun he => hjp (Option.some.inj he).symm), if_neg hjx]
      rw [h4rest j hjx, h3rest j hjx hjp hjxr, h2rest j hjx hjp]
    have h5root : t5.root = some x := by rw [ht5, set_child_some_root, h4root]
    have h5len : t5.nodes.length = t.nodes.length := by
      rw [ht5, set_child_length, h4len]
    have h5some : ∀ j, (load t5 j).isSome = (load t j).isSome := by
      intro j
      by_cases hjx : j = x
      · subst hjx; rw [h5x, hxld]; rfl
      by_cases hjp : j = p
      · subst hjp; rw [h5p, hpl]; rfl
      by_cases hjxr : aroot xr = some j
      · rw [h5xr j hjxr]; cases load t j <;> rfl
      · rw [h5rest j hjx hjp hjxr]
    have h5data : ∀ j, (load t5 j).map Node.data = (load t j).map Node.data := by
      intro j
      by_cases hjx : j = x
      · subst hjx; rw [h5x, hxld]; rfl
      by_cases hjp : j = p
      · subst hjp; rw [h5p, hpl]; rfl
      by_cases hjxr : aroot xr = some j
      · rw [h5xr j hjxr]; cases load t j <;> rfl
      · rw [h5rest j hjx hjp hjxr]
    have h5cd : ∀ j, j ≠ x → j ≠ p →
        (load t5 j).map (fun n => (n.color, n.data)) =
          (load t j).map (fun n => (n.color, n.data)) := by
      intro j hjx hjp
      by_cases hjxr : aroot xr = some j
      · rw [h5xr j hjxr]; cases load t j <;> rfl
      · rw [h5rest j hjx hjp hjxr]
    have hxl_un : ∀ j ∈ addrs xl, load t5 j = load t j := by
      intro j hj
      have hjm : j ∈ mAddrs xl := mem_mAddrs.mpr hj
      refine h5rest j (fun he => hd2.1 (he ▸ hjm)) (fun he => hp_nxl (he ▸ hjm)) ?_
      exact fun hc => (hd2.2.2.2 j hjm) (aroot_mem hc)
    have hpr_un : ∀ j ∈ addrs pr, load t5 j = load t j := by
      intro j hj
      have hjm : j ∈ mAddrs pr := mem_mAddrs.mpr hj
      have hnsub : j ∉ mAddrs (ATree.node x xl xr) := hd1.2.2.2 j hjm
      refine h5rest j (fun he => hnsub (by simp [he])) (fun he => hd1.1 (he ▸ hjm)) ?_
      exact fun hc => hnsub (by simp [aroot_mem hc])
    have hxr_rest : ∀ j ∈ addrs xr, aroot xr ≠ some j → load t5 j = load t j := by
      intro j hj hne
      have hjm : j ∈ mAddrs xr := mem_mAddrs.mpr hj
      exact h5rest j (fun he => hd2.2.2.1 (he ▸ hjm)) (fun he => hp_nxr (he ▸ hjm)) hne
    have hms : (mCtx ACtx.top + mAddrs (ATree.node x xl (ATree.node p xr pr))) =
        (mCtx ACtx.top + mAddrs (ATree.node p (ATree.node x xl xr) pr)) := by
      simp only [mCtx_top, mAddrs_node, ← Multiset.singleton_add]
      abel
    refine ⟨⟨.top _, ?_, ?_, ?_, ?_⟩, h5data, h5some, h5cd, h5x, h5p, h5len,
      fun j hjx hjp hjxr _ => h5rest j hjx hjp hjxr⟩
    · refine .node _ h5x rfl hxlc rfl (agree_congr haxl hxl_un) ?_
      refine .node _ h5p rfl rfl hprc ?_ (agree_congr hapr hpr_un)
      exact agree_reparent haxr h5xr hxr_rest hxrnodup
    · rw [hms]
      exact h.nodup
    · simp [aplug, aroot, h5root]
    · intro i
      rw [show ((load t5 i).isSome = true) = ((load t i).isSome = true) from
        by rw [h5some i], hms]
      exact h.alloc i
  | fr sd2 g go k2 =>
    obtain ⟨gn, hgl, hgp, hgs, hgo, hago, hagk⟩ := agreeC_fr_inv h.ctx
    have hdg := loc_fr_disjoint h
    have hgx : g ≠ x := fun he => hdg.2.2.1 (by rw [he]; simp)
    have hgne_p : g ≠ p := fun he => hdg.2.2.1 (by rw [he]; simp)
    have hg_nxr : g ∉ mAddrs xr := fun hc => hdg.2.2.1 (by simp [hc])
    have hxr_ne_g : aroot xr ≠ some g := aroot_ne_of_not_mem hg_nxr
    have h3g : load t3 g = some gn := by
      rw [h3rest g hgx hgne_p hxr_ne_g, h2rest g hgx hgne_p, hgl]
    have hsd3 : is_left_child t3 (some p) = sd2 := by
      rw [@is_left_child_eval α t3 p g gn (by rw [h3parp]; rfl) h3g]
      cases sd2 with
      | true =>
        have hgs2 : gn.lchild = some p := by simpa [aroot] using hgs
        simp [hgs2]
      | false =>
        have hgo2 : gn.lchild = aroot go := by simpa using hgo
        have hgop : aroot go ≠ some p :=
          aroot_ne_of_not_mem (fun hc => (hdg.2.2.2 p hc) (by simp))
        simp [hgo2, hgop]
    rw [hsd3]
    simp only [ctxParent]
    set t4 : Tree α := set_child t3 (some g) (some x) sd2 with ht4
    set t5 : Tree α := set_child t4 (some x) (some p) false with ht5
    have h4g : load t4 g = some (if sd2 then { gn with lchild := some x }
        else { gn with rchild := some x }) := by
      rw [ht4, load_set_child_some]
      simp only [if_neg (show ¬((some x : Option Nat) = some g) from
        fun he => hgx ((Option.some.inj he).symm)), if_pos rfl]
      rw [h3g]
      cases sd2 <;> rfl
    have h4x : load t4 x = some { xn with color := pn.color, parent := some g } := by
      rw [ht4, load_set_child_some]
      simp only [if_pos rfl, if_neg (fun he : x = g => hgx he.symm)]
      rw [h3x]
      rfl
    have h4rest : ∀ j, j ≠ x → j ≠ g → load t4 j = load t3 j := by
      intro j hjx hjg
      rw [ht4, load_set_child_some]
      simp only [if_neg (fun he : (some x : Option Nat) = some j =>
        hjx (Option.some.inj he).symm), if_neg hjg]
    have h4root : t4.root = t.root := by rw [ht4, set_child_some_root, h3root]
    have h4len : t4.nodes.length = t.nodes.length := by
      rw [ht4, set_child_length, h3len]
    have h5x : load t5 x =
        some { xn with color := pn.color, parent := some g, rchild := some p } := by
      rw [ht5, load_set_child_some]
      simp only [if_pos rfl, if_neg (show ¬((some p : Option Nat) = some x) from
        fun he => hpx (Option.some.inj he))]
      rw [h4x]
      rfl
    have h5p : load t5 p =
        some { pn with color := xn.color, lchild := aroot xr, parent := some x } := by
      rw [ht5, load_set_child_some]
      simp only [if_pos rfl, if_neg (fun he : p = x => hpx he)]
      rw [h4rest p (fun he => hpx he) (fun he => hgne_p he.symm), h3p]
      rfl
    have h5g : load t5 g = some (if sd2 then { gn with lchild := some x }
        else { gn with rchild := some x }) := by
      rw [ht5, load_set_child_some]
      simp only [if_neg (show ¬((some p : Option Nat) = some g) from
        fun he => hgne_p (Option.some.inj he).symm), if_neg (fun he : g = x => hgx he)]
      exact h4g
    have h5xr : ∀ j, aroot xr = some j →
        load t5 j = (load t j).map (fun n => { n with parent := some p }) := by
      intro j hj
      have hjx : j ≠ x := fun he => hxr_ne_x (he ▸ hj)
      have hjp : j ≠ p := fun he => hxr_ne_p (he ▸ hj)
      have hjg : j ≠ g := fun he => hxr_ne_g (he ▸ hj)
      rw [ht5, load_set_child_some]
      simp only [if_neg (show ¬((some p : Option Nat) = some j) from
        fun he => hjp (Option.some.inj he).symm), if_neg hjx]
      rw [h4rest j hjx hjg, h3xr j hj]
    have h5rest : ∀ j, j ≠ x → j ≠ p → aroot xr ≠ some j → j ≠ g →
        load t5 j = load t j := by
      intro j hjx hjp hjxr hjg
      rw [ht5, load_set_child_some]
      simp only [if_neg (show ¬((some p : Option Nat) = some j) from
        fun he => hjp (Option.some.inj he).symm), if_neg hjx]
      rw [h4rest j hjx hjg, h3rest j hjx hjp hjxr, h2rest j hjx hjp]
    have h5root : t5.root = t.root := by rw [ht5, set_child_some_root, h4root]
    have h5len : t5.nodes.length = t.nodes.length := by
      rw [ht5, set_child_length, h4len]
    have h5some : ∀ j, (load t5 j).isSome = (load t j).isSome := by
      intro j
      by_cases hjx : j = x
      · subst hjx; rw [h5x, hxld]; rfl
      by_cases hjp : j = p
      · subst hjp; rw [h5p, hpl]; rfl
      by_cases hjg : j = g
      · subst hjg; rw [h5g, hgl]; rfl
      by_cases hjxr : aroot xr = some j
      · rw [h5xr j hjxr]; cases load t j <;> rfl
      · rw [h5rest j hjx hjp hjxr hjg]
    have h5data : ∀ j, (load t5 j).map Node.data = (load t j).map Node.data := by
      intro j
      by_cases hjx : j = x
      · subst hjx; rw [h5x, hxld]; rfl
      by_cases hjp : j = p
      · subst hjp; rw [h5p, hpl]; rfl
      by_cases hjg : j = g
      · subst hjg; rw [h5g, hgl]; cases sd2 <;> rfl
      by_cases hjxr : aroot xr = some j
      · rw [h5xr j hjxr]; cases load t j <;> rfl
      · rw [h5rest j hjx hjp hjxr hjg]
    have h5cd : ∀ j, j ≠ x → j ≠ p →
        (load t5 j).map (fun n => (n.color, n.data)) =
          (load t j).map (fun n => (n.color, n.data)) := by
      intro j hjx hjp
      by_cases hjg : j = g
      · subst hjg; rw [h5g, hgl]; cases sd2 <;> rfl
      by_cases hjxr : aroot xr = some j
      · rw [h5xr j hjxr]; cases load t j <;> rfl
      · rw [h5rest j hjx hjp hjxr hjg]
    have hxl_un : ∀ j ∈ addrs xl, load t5 j = load t j := by
      intro j hj
      have hjm : j ∈ mAddrs xl := mem_mAddrs.mpr hj
      have hjg : j ≠ g := fun he => hdg.2.2.1 (by rw [← he]; simp [hjm])
      refine h5rest j (fun he => hd2.1 (he ▸ hjm)) (fun he => hp_nxl (he ▸ hjm)) ?_ hjg
      exact fun hc => (hd2.2.2.2 j hjm) (aroot_mem hc)
    have hpr_un : ∀ j ∈ addrs pr, load t5 j = load t j := by
      intro j hj
      have hjm : j ∈ mAddrs pr := mem_mAddrs.mpr hj
      have hnsub : j ∉ mAddrs (ATree.node x xl xr) := hd1.2.2.2 j hjm
      have hjg : j ≠ g := fun he => hdg.2.2.1 (by rw [← he]; simp [hjm])
      refine h5rest j (fun he => hnsub (by simp [he])) (fun he => hd1.1 (he ▸ hjm))
        ?_ hjg
      exact fun hc => hnsub (by simp [aroot_mem hc])
    have hxr_rest : ∀ j ∈ addrs xr, aroot xr ≠ some j → load t5 j = load t j := by
      intro j hj hne
      have hjm : j ∈ mAddrs xr := mem_mAddrs.mpr hj
      have hjg : j ≠ g := fun he => hg_nxr (he ▸ hjm)
      exact h5rest j (fun he => hd2.2.2.1 (he ▸ hjm)) (fun he => hp_nxr (he ▸ hjm))
        hne hjg
    have hctx_nodup : (mCtx (ACtx.fr sd2 g go k2)).Nodup := by
      have := h.nodup
      rw [Multiset.nodup_add] at this
      exact this.1
    have hctx_dis : ∀ j ∈ mCtx (ACtx.fr sd2 g go k2),
        j ∉ mAddrs (ATree.node p (ATree.node x xl xr) pr) := by
      have := h.nodup
      rw [Multiset.nodup_add] at this
      exact fun j hj => Multiset.disjoint_left.mp this.2.2 hj
    have hgo_un : ∀ j ∈ addrs go, load t5 j = load t j := by
      intro j hj
      have hjm : j ∈ mAddrs go := mem_mAddrs.mpr hj
      have hjk : j ∈ mCtx (ACtx.fr sd2 g go k2) := by simp [hjm]
      have hnsub := hctx_dis j hjk
      have hjg : j ≠ g := fun he => hdg.1 (he ▸ hjm)
      refine h5rest j (fun he => hnsub (by simp [he])) (fun he => hnsub (by simp [he]))
        ?_ hjg
      exact fun hc => hnsub (by simp [aroot_mem hc])
    have hk2_un : ∀ j ∈ ctxAddrs k2, load t5 j = load t j := by
      intro j hj
      have hjm : j ∈ mCtx k2 := by simp [mCtx]; exact hj
      have hjk : j ∈ mCtx (ACtx.fr sd2 g go k2) := by simp [hjm]
      have hnsub := hctx_dis j hjk
      have hjg : j ≠ g := fun he => hdg.2.1 (he ▸ hjm)
      refine h5rest j (fun he => hnsub (by simp [he])) (fun he => hnsub (by simp [he]))
        ?_ hjg
      exact fun hc => hnsub (by simp [aroot_mem hc])
    have hms : (mCtx (ACtx.fr sd2 g go k2) +
          mAddrs (ATree.node x xl (ATree.node p xr pr))) =
        (mCtx (ACtx.fr sd2 g go k2) +
          mAddrs (ATree.node p (ATree.node x xl xr) pr)) := by
      simp only [mCtx_fr, mAddrs_node, ← Multiset.singleton_add]
      abel
    refine ⟨⟨?_, ?_, ?_, ?_, ?_⟩, h5data, h5some, h5cd, h5x, h5p, h5len,
      fun j hjx hjp hjxr hjg =>
        h5rest j hjx hjp hjxr (fun he => hjg (by rw [he]))⟩
    · refine .fr _ h5g ?_ ?_ ?_ (agree_congr hago hgo_un) (agreeC_congr hagk hk2_un)
      · cases sd2 <;> simpa using hgp
      · cases sd2 <;> rfl
      · cases sd2 <;> simpa using hgo
    · refine .node _ h5x rfl hxlc rfl (agree_congr haxl hxl_un) ?_
      refine .node _ h5p rfl rfl hprc ?_ (agree_congr hapr hpr_un)
      exact agree_reparent haxr h5xr hxr_rest hxrnodup
    · rw [hms]
      exact h.nodup
    · rw [h5root, h.root_eq]
      exact aroot_aplug_fr sd2 g go k2 _ _
    · intro i
      rw [show ((load t5 i).isSome = true) = ((load t i).isSome = true) from
        by rw [h5some i], hms]
      exact h.alloc i


theorem rotateUp_simR {t : Tree α} {k : ACtx} {p x : Nat} {pl xl xr : ATree}
    {pn xn : Node α}
    (h : Loc t k (.node p pl (.node x xl xr)))
    (hpl : load t p = some pn) (hxld : load t x = some xn) :
    Loc (rotateUp t (some x)) k (.node x (.node p pl xl) xr) ∧
    (∀ j, (load (rotateUp t (some x)) j).map Node.data = (load t j).map Node.data) ∧
    (∀ j, (load (rotateUp t (some x)) j).isSome = (load t j).isSome) ∧
    (∀ j, j ≠ x → j ≠ p →
      (load (rotateUp t (some x)) j).map (fun n => (n.color, n.data)) =
        (load t j).map (fun n => (n.color, n.data))) ∧
    load (rotateUp t (some x)) x =
      some { xn with color := pn.color, parent := ctxParent k, lchild := some p } ∧
    load (rotateUp t (some x)) p =
      some { pn with color := xn.color, parent := some x, rchild := aroot xl } ∧
    (rotateUp t (some x)).nodes.length = t.nodes.length ∧
    (∀ j, j ≠ x → j ≠ p → aroot xl ≠ some j → ctxParent k ≠ some j →
      load (rotateUp t (some x)) j = load t j) := by
  obtain ⟨pn2, hpl2, hpp, hplc, hprc⟩ := loc_load h
  rw [hpl] at hpl2
  have hpe : pn = pn2 := Option.some.inj hpl2
  subst hpe
  have hxlocA : Loc t (.fr false p pl k) (.node x xl xr) := loc_zoomR h
  obtain ⟨xn2, hxld2, hxp, hxlc, hxrc⟩ := loc_load hxlocA
  rw [hxld] at hxld2
  have hxe : xn = xn2 := Option.some.inj hxld2
  subst hxe
  have hxp2 : xn.parent = some p := hxp
  have hprc2 : pn.rchild = some x := hprc
  have hd1 := loc_fr_disjoint hxlocA
  have hpx : p ≠ x := fun he => hd1.2.2.1 (by simp [he])
  have hxlocL : Loc t (.fr true x xr (.fr false p pl k)) xl := loc_zoomL hxlocA
  have hd2 := loc_fr_disjoint hxlocL
  have hp_nxl : p ∉ mAddrs xl := fun hc => hd1.2.2.1 (by simp [hc])
  have hp_nxr : p ∉ mAddrs xr := fun hc => hd1.2.2.1 (by simp [hc])
  have hxl_ne_x : aroot xl ≠ some x := aroot_ne_of_not_mem hd2.2.2.1
  have hxl_ne_p : aroot xl ≠ some p := aroot_ne_of_not_mem hp_nxl
  have hxlnodup : (mAddrs xl).Nodup := by
    have := hxlocL.nodup
    rw [Multiset.nodup_add] at this
    exact this.2.1
  obtain ⟨_, _, _, _, _, haxl, haxr⟩ := agree_node_inv hxlocA.sub
  obtain ⟨_, _, _, _, _, hapl, _⟩ := agree_node_inv h.sub
  have hparx : parent t (some x) = some p := by
    rw [parent_load hxld]; exact hxp2
  have hrw1 : rotateUp t (some x) =
      rotateUpNode (setColor (setColor t (some p) xn.color) (some x) pn.color) (some x) := by
    simp only [rotateUp, hparx, deref, Option.some_bind, hpl, hxld]
  set t2 : Tree α := setColor (setColor t (some p) xn.color) (some x) pn.color with ht2
  have h2x : load t2 x = some { xn with color := pn.color } := by
    rw [ht2, load_setColor, if_pos rfl, load_setColor,
      if_neg (fun he : x = p => hpx he.symm), hxld]
    rfl
  have h2p : load t2 p = some { pn with color := xn.color } := by
    rw [ht2, load_setColor, if_neg (fun he : p = x => hpx he), load_setColor,
      if_pos rfl, hpl]
    rfl
  have h2rest : ∀ j, j ≠ x → j ≠ p → load t2 j = load t j := by
    intro j hjx hjp
    rw [ht2, load_setColor, if_neg hjx, load_setColor, if_neg hjp]
  have h2root : t2.root = t.root := by
    rw [ht2, setColor_root, setColor_root]
  have h2len : t2.nodes.length = t.nodes.length := by
    rw [ht2, setColor_length, setColor_length]
  have h2parx : parent t2 (some x) = some p := by
    rw [parent_load h2x]; exact hxp2
  have h2parp : parent t2 (some p) = ctxParent k := by
    rw [parent_load h2p]; exact hpp
  have hx_npl : x ∉ mAddrs pl := fun hc => (hd1.2.2.2 x hc) (by simp)
  have h2left : is_left_child t2 (some x) = false := by
    rw [is_left_child_eval h2parx h2p]
    show (pn.lchild == some x) = false
    rw [hplc]
    simp [aroot_ne_of_not_mem hx_npl]
  have h2gp : grandparent t2 (some x) = ctxParent k := by
    unfold grandparent
    rw [h2parx, h2parp]
  have h2inside : inside_child t2 (some x) = aroot xl := by
    unfold inside_child
    rw [show deref t2 (some x) = load t2 x from rfl, h2x]
    show (if is_left_child t2 (some x) then xn.rchild else xn.lchild) = aroot xl
    rw [h2left]
    simp [hxlc]
  have hrw2 : rotateUpNode t2 (some x) =
      set_child (set_child (set_child t2 (some p) (aroot xl) false) (ctxParent k)
        (some x) (is_left_child (set_child t2 (some p) (aroot xl) false) (some p)))
        (some x) (some p) true := by
    simp only [rotateUpNode, h2left, h2parx, h2gp, h2inside, Bool.not_false]
  set t3 : Tree α := set_child t2 (some p) (aroot xl) false with ht3
  have h3p : load t3 p = some { pn with color := xn.color, rchild := aroot xl } := by
    rw [ht3, load_set_child_some]
    simp only [if_pos rfl, if_neg hxl_ne_p]
    rw [h2p]
    rfl
  have h3x : load t3 x = some { xn with color := pn.color } := by
    rw [ht3, load_set_child_some]
    simp only [if_neg (fun he : x = p => hpx he.symm), if_neg hxl_ne_x]
    exact h2x
  have h3xl : ∀ j, aroot xl = some j →
      load t3 j = (load t j).map (fun n => { n with parent := some p }) := by
    intro j hj
    have hjx : j ≠ x := fun he => hxl_ne_x (he ▸ hj)
    have hjp : j ≠ p := fun he => hxl_ne_p (he ▸ hj)
    rw [ht3, load_set_child_some]
    simp only [if_pos hj, if_neg hjp]
    rw [h2rest j hjx hjp]
  have h3rest : ∀ j, j ≠ x → j ≠ p → aroot xl ≠ some j → load t3 j = load t2 j := by
    intro j hjx hjp hjxl
    rw [ht3, load_set_child_some]
    simp only [if_neg hjxl, if_neg hjp]
  have h3root : t3.root = t.root := by
    rw [ht3, set_child_some_root, h2root]
  have h3len : t3.nodes.length = t.nodes.length := by
    rw [ht3, set_child_length, h2len]
  have h3parp : parent t3 (some p) = ctxParent k := by
    rw [parent_load h3p]
    exact hpp
  rw [hrw1, hrw2]
  cases k with
  | top =>
    have hsd3 : is_left_child t3 (some p) = false :=
      is_left_child_none_parent (by rw [h3parp]; rfl)
    rw [hsd3]
    simp only [ctxParent]
    set t4 : Tree α := set_child t3 none (some x) false with ht4
    set t5 : Tree α := set_child t4 (some x) (some p) true with ht5
    have h4x : load t4 x = some { xn with color := pn.color, parent := none } := by
      rw [ht4, load_set_child_none, if_pos rfl, h3x]
      rfl
    have h4rest : ∀ j, j ≠ x → load t4 j = load t3 j := by
      intro j hjx
      rw [ht4, load_set_child_none,
        if_neg (fun he => hjx (Option.some.inj he).symm)]
    have h4root : t4.root = some x := by rw [ht4, set_child_none_root]
    have h4len : t4.nodes.length = t.nodes.length := by
      rw [ht4, set_child_length, h3len]
    have h5x : load t5 x =
        some { xn with color := pn.color, parent := none, lchild := some p } := by
      rw [ht5, load_set_child_some]
      simp only [if_pos rfl,
        if_neg (show ¬((some p : Option Nat) = some x) from
          fun he => hpx (Option.some.inj he))]
      rw [h4x]
      rfl
    have h5p : load t5 p =
        some { pn with color := xn.color, rchild := aroot xl, parent := some x } := by
      rw [ht5, load_set_child_some]
      simp only [if_pos rfl, if_neg (fun he : p = x => hpx he)]
      rw [h4rest p (fun he => hpx he), h3p]
      rfl
    have h5xl : ∀ j, aroot xl = some j →
        load t5 j = (load t j).map (fun n => { n with parent := some p }) := by
      intro j hj
      have hjx : j ≠ x := fun he => hxl_ne_x (he ▸ hj)
      have hjp : j ≠ p := fun he => hxl_ne_p (he ▸ hj)
      rw [ht5, load_set_child_some]
      simp only [if_neg (show ¬((some p : Option Nat) = some j) from
        fun he => hjp (Option.some.inj he).symm), if_neg hjx]
      rw [h4rest j hjx, h3xl j hj]
    have h5rest : ∀ j, j ≠ x → j ≠ p → aroot xl ≠ some j → load t5 j = load t j := by
      intro j hjx hjp hjxl
      rw [ht5, load_set_child_some]
      simp only [if_neg (show ¬((some p : Option Nat) = some j) from
        fun he => hjp (Option.some.inj he).symm), if_neg hjx]
      rw [h4rest j hjx, h3rest j hjx hjp hjxl, h2rest j hjx hjp]
    have h5root : t5.root = some x := by rw [ht5, set_child_some_root, h4root]
    have h5len : t5.nodes.length = t.nodes.length := by
      rw [ht5, set_child_length, h4len]
    have h5some : ∀ j, (load t5 j).isSome = (load t j).isSome := by
      intro j
      by_cases hjx : j = x
      · subst hjx; rw [h5x, hxld]; rfl
      by_cases hjp : j = p
      · subst hjp; rw [h5p, hpl]; rfl
      by_cases hjxl : aroot xl = some j
      · rw [h5xl j hjxl]; cases load t j <;> rfl
      · rw [h5rest j hjx hjp hjxl]
    have h5data : ∀ j, (load t5 j).map Node.data = (load t j).map Node.data := by
      intro j
      by_cases hjx : j = x
      · subst hjx; rw [h5x, hxld]; rfl
      by_cases hjp : j = p
      · subst hjp; rw [h5p, hpl]; rfl
      by_cases hjxl : aroot xl = some j
      · rw [h5xl j hjxl]; cases load t j <;> rfl
      · rw [h5rest j hjx hjp hjxl]
    have h5cd : ∀ j, j ≠ x → j ≠ p →
        (load t5 j).map (fun n => (n.color, n.data)) =
          (load t j).map (fun n => (n.color, n.data)) := by
      intro j hjx hjp
      by_cases hjxl : aroot xl = some j
      · rw [h5xl j hjxl]; cases load t j <;> rfl
      · rw [h5rest j hjx hjp hjxl]
    have hxr_un : ∀ j ∈ addrs xr, load t5 j = load t j := by
      intro j hj
      have hjm : j ∈ mAddrs xr := mem_mAddrs.mpr hj
      refine h5rest j (fun he => hd2.1 (he ▸ hjm)) (fun he => hp_nxr (he ▸ hjm)) ?_
      exact fun hc => (hd2.2.2.2 j hjm) (aroot_mem hc)
    have hpl_un : ∀ j ∈ addrs pl, load t5 j = load t j := by
      intro j hj
      have hjm : j ∈ mAddrs pl := mem_mAddrs.mpr hj
      have hnsub : j ∉ mAddrs (ATree.node x xl xr) := hd1.2.2.2 j hjm
      refine h5rest j (fun he => hnsub (by simp [he])) (fun he => hd1.1 (he ▸ hjm)) ?_
      exact fun hc => hnsub (by simp [aroot_mem hc])
    have hxl_rest : ∀ j ∈ addrs xl, aroot xl ≠ some j → load t5 j = load t j := by
      intro j hj hne
      have hjm : j ∈ mAddrs xl := mem_mAddrs.mpr hj
      exact h5rest j (fun he => hd2.2.2.1 (he ▸ hjm)) (fun he => hp_nxl (he ▸ hjm)) hne
    have hms : (mCtx ACtx.top + mAddrs (ATree.node x (ATree.node p pl xl) xr)) =
        (mCtx ACtx.top + mAddrs (ATree.node p pl (ATree.node x xl xr))) := by
      simp only [mCtx_top, mAddrs_node, ← Multiset.singleton_add]
      abel
    refine ⟨⟨.top _, ?_, ?_, ?_, ?_⟩, h5data, h5some, h5cd, h5x, h5p, h5len,
      fun j hjx hjp hjxl _ => h5rest j hjx hjp hjxl⟩
    · refine .node _ h5x rfl rfl hxrc ?_ (agree_congr haxr hxr_un)
      refine .node _ h5p rfl hplc rfl (agree_congr hapl hpl_un) ?_
      exact agree_reparent haxl h5xl hxl_rest hxlnodup
    · rw [hms]
      exact h.nodup
    · simp [aplug, aroot, h5root]
    · intro i
      rw [show ((load t5 i).isSome = true) = ((load t i).isSome = true) from
        by rw [h5some i], hms]
      exact h.alloc i
  | fr sd2 g go k2 =>
    obtain ⟨gn, hgl, hgp, hgs, hgo, hago, hagk⟩ := agreeC_fr_inv h.ctx
    have hdg := loc_fr_disjoint h
    have hgx : g ≠ x := fun he => hdg.2.2.1 (by rw [he]; simp)
    have hgne_p : g ≠ p := fun he => hdg.2.2.1 (by rw [he]; simp)
    have hg_nxl : g ∉ mAddrs xl := fun hc => hdg.2.2.1 (by simp [hc])
    have hxl_ne_g : aroot xl ≠ some g := aroot_ne_of_not_mem hg_nxl
    have h3g : load t3 g = some gn := by
      rw [h3rest g hgx hgne_p hxl_ne_g, h2rest g hgx hgne_p, hgl]
    have hsd3 : is_left_child t3 (some p) = sd2 := by
      rw [@is_left_child_eval α t3 p g gn (by rw [h3parp]; rfl) h3g]
      cases sd2 with
      | true =>
        have hgs2 : gn.lchild = some p := by simpa [aroot] using hgs
        simp [hgs2]
      | false =>
        have hgo2 : gn.lchild = aroot go := by simpa using hgo
        have hgop : aroot go ≠ some p :=
          aroot_ne_of_not_mem (fun hc => (hdg.2.2.2 p hc) (by simp))
        simp [hgo2, hgop]
    rw [hsd3]
    simp only [ctxParent]
    set t4 : Tree α := set_child t3 (some g) (some x) sd2 with ht4
    set t5 : Tree α := set_child t4 (some x) (some p) true with ht5
    have h4g : load t4 g = some (if sd2 then { gn with lchild := some x }
        else { gn with rchild := some x }) := by
      rw [ht4, load_set_child_some]
      simp only [if_neg (show ¬((some x : Option Nat) = some g) from
        fun he => hgx ((Option.some.inj he).symm)), if_pos rfl]
      rw [h3g]
      cases sd2 <;> rfl
    have h4x : load t4 x = some { xn with color := pn.color, parent := some g } := by
      rw [ht4, load_set_child_some]
      simp only [if_pos rfl, if_neg (fun he : x = g => hgx he.symm)]
      rw [h3x]
      rfl
    have h4rest : ∀ j, j ≠ x → j ≠ g → load t4 j = load t3 j := by
      intro j hjx hjg
      rw [ht4, load_set_child_some]
      simp only [if_neg (fun he : (some x : Option Nat) = some j =>
        hjx (Option.some.inj he).symm), if_neg hjg]
    have h4root : t4.root = t.root := by rw [ht4, set_child_some_root, h3root]
    have h4len : t4.nodes.length = t.nodes.length := by
      rw [ht4, set_child_length, h3len]
    have h5x : load t5 x =
        some { xn with color := pn.color, parent := some g, lchild := some p } := by
      rw [ht5, load_set_child_some]
      simp only [if_pos rfl, if_neg (show ¬((some p : Option Nat) = some x) from
        fun he => hpx (Option.some.inj he))]
      rw [h4x]
      rfl
    have h5p : load t5 p =
        some { pn with color := xn.color, rchild := aroot xl, parent := some x } := by
      rw [ht5, load_set_child_some]
      simp only [if_pos rfl, if_neg (fun he : p = x => hpx he)]
      rw [h4rest p (fun he => hpx he) (fun he => hgne_p he.symm), h3p]
      rfl
    have h5g : load t5 g = some (if sd2 then { gn with lchild := some x }
        else { gn with rchild := some x }) := by
      rw [ht5, load_set_child_some]
      simp only [if_neg (show ¬((some p : Option Nat) = some g) from
        fun he => hgne_p (Option.some.inj he).symm), if_neg (fun he : g = x => hgx he)]
      exact h4g
    have h5xl : ∀ j, aroot xl = some j →
        load t5 j = (load t j).map (fun n => { n with parent := some p }) := by
      intro j hj
      have hjx : j ≠ x := fun he => hxl_ne_x (he ▸ hj)
      have hjp : j ≠ p := fun he => hxl_ne_p (he ▸ hj)
      have hjg : j ≠ g := fun he => hxl_ne_g (he ▸ hj)
      rw [ht5, load_set_child_some]
      simp only [if_neg (show ¬((some p : Option Nat) = some j) from
        fun he => hjp (Option.some.inj he).symm), if_neg hjx]
      rw [h4rest j hjx hjg, h3xl j hj]
    have h5rest : ∀ j, j ≠ x → j ≠ p → aroot xl ≠ some j → j ≠ g →
        load t5 j = load t j := by
      intro j hjx hjp hjxl hjg
      rw [ht5, load_set_child_some]
      simp only [if_neg (show ¬((some p : Option Nat) = some j) from
        fun he => hjp (Option.some.inj he).symm), if_neg hjx]
      rw [h4rest j hjx hjg, h3rest j hjx hjp hjxl, h2rest j hjx hjp]
    have h5root : t5.root = t.root := by rw [ht5, set_child_some_root, h4root]
    have h5len : t5.nodes.length = t.nodes.length := by
      rw [ht5, set_child_length, h4len]
    have h5some : ∀ j, (load t5 j).isSome = (load t j).isSome := by
      intro j
      by_cases hjx : j = x
      · subst hjx; rw [h5x, hxld]; rfl
      by_cases hjp : j = p
      · subst hjp; rw [h5p, hpl]; rfl
      by_cases hjg : j = g
      · subst hjg; rw [h5g, hgl]; rfl
      by_cases hjxl : aroot xl = some j
      · rw [h5xl j hjxl]; cases load t j <;> rfl
      · rw [h5rest j hjx hjp hjxl hjg]
    have h5data : ∀ j, (load t5 j).map Node.data = (load t j).map Node.data := by
      intro j
      by_cases hjx : j = x
      · subst hjx; rw [h5x, hxld]; rfl
      by_cases hjp : j = p
      · subst hjp; rw [h5p, hpl]; rfl
      by_cases hjg : j = g
      · subst hjg; rw [h5g, hgl]; cases sd2 <;> rfl
      by_cases hjxl : aroot xl = some j
      · rw [h5xl j hjxl]; cases load t j <;> rfl
      · rw [h5rest j hjx hjp hjxl hjg]
    have h5cd : ∀ j, j ≠ x → j ≠ p →
        (load t5 j).map (fun n => (n.color, n.data)) =
          (load t j).map (fun n => (n.color, n.data)) := by
      intro j hjx hjp
      by_cases hjg : j = g
      · subst hjg; rw [h5g, hgl]; cases sd2 <;> rfl
      by_cases hjxl : aroot xl = some j
      · rw [h5xl j hjxl]; cases load t j <;> rfl
      · rw [h5rest j hjx hjp hjxl hjg]
    have hxr_un : ∀ j ∈ addrs xr, load t5 j = load t j := by
      intro j hj
      have hjm : j ∈ mAddrs xr := mem_mAddrs.mpr hj
      have hjg : j ≠ g := fun he => hdg.2.2.1 (by rw [← he]; simp [hjm])
      refine h5rest j (fun he => hd2.1 (he ▸ hjm)) (fun he => hp_nxr (he ▸ hjm))
        ?_ hjg
      exact fun hc => (hd2.2.2.2 j hjm) (aroot_mem hc)
    have hpl_un : ∀ j ∈ addrs pl, load t5 j = load t j := by
      intro j hj
      have hjm : j ∈ mAddrs pl := mem_mAddrs.mpr hj
      have hnsub : j ∉ mAddrs (ATree.node x xl xr) := hd1.2.2.2 j hjm
      have hjg : j ≠ g := fun he => hdg.2.2.1 (by rw [← he]; simp [hjm])
      refine h5rest j (fun he => hnsub (by simp [he])) (fun he => hd1.1 (he ▸ hjm))
        ?_ hjg
      exact fun hc => hnsub (by simp [aroot_mem hc])
    have hxl_rest : ∀ j ∈ addrs xl, aroot xl ≠ some j → load t5 j = load t j := by
      intro j hj hne
      have hjm : j ∈ mAddrs xl := mem_mAddrs.mpr hj
      have hjg : j ≠ g := fun he => hg_nxl (he ▸ hjm)
      exact h5rest j (fun he => hd2.2.2.1 (he ▸ hjm)) (fun he => hp_nxl (he ▸ hjm))
        hne hjg
    have hctx_dis : ∀ j ∈ mCtx (ACtx.fr sd2 g go k2),
        j ∉ mAddrs (ATree.node p pl (ATree.node x xl xr)) := by
      have := h.nodup
      rw [Multiset.nodup_add] at this
      exact fun j hj => Multiset.disjoint_left.mp this.2.2 hj
    have hgo_un : ∀ j ∈ addrs go, load t5 j = load t j := by
      intro j hj
      have hjm : j ∈ mAddrs go := mem_mAddrs.mpr hj
      have hjk : j ∈ mCtx (ACtx.fr sd2 g go k2) := by simp [hjm]
      have hnsub := hctx_dis j hjk
      have hjg : j ≠ g := fun he => hdg.1 (he ▸ hjm)
      refine h5rest j (fun he => hnsub (by simp [he])) (fun he => hnsub (by simp [he]))
        ?_ hjg
      exact fun hc => hnsub (by simp [aroot_mem hc])
    have hk2_un : ∀ j ∈ ctxAddrs k2, load t5 j = load t j := by
      intro j hj
      have hjm : j ∈ mCtx k2 := by simp [mCtx]; exact hj
      have hjk : j ∈ mCtx (ACtx.fr sd2 g go k2) := by simp [hjm]
      have hnsub := hctx_dis j hjk
      have hjg : j ≠ g := fun he => hdg.2.1 (he ▸ hjm)
      refine h5rest j (fun he => hnsub (by simp [he])) (fun he => hnsub (by simp [he]))
        ?_ hjg
      exact fun hc => hnsub (by simp [aroot_mem hc])
    have hms : (mCtx (ACtx.fr sd2 g go k2) +
          mAddrs (ATree.node x (ATree.node p pl xl) xr)) =
        (mCtx (ACtx.fr sd2 g go k2) +
          mAddrs (ATree.node p pl (ATree.node x xl xr))) := by
      simp only [mCtx_fr, mAddrs_node, ← Multiset.singleton_add]
      abel
    refine ⟨⟨?_, ?_, ?_, ?_, ?_⟩, h5data, h5some, h5cd, h5x, h5p, h5len,
      fun j hjx hjp hjxl hjg =>
        h5rest j hjx hjp hjxl (fun he => hjg (by rw [he]))⟩
    · refine .fr _ h5g ?_ ?_ ?_ (agree_congr hago hgo_un) (agreeC_congr hagk hk2_un)
      · cases sd2 <;> simpa using hgp
      · cases sd2 <;> rfl
      · cases sd2 <;> simpa using hgo
    · refine .node _ h5x rfl rfl hxrc ?_ (agree_congr haxr hxr_un)
      refine .node _ h5p rfl hplc rfl (agree_congr hapl hpl_un) ?_
      exact agree_reparent haxl h5xl hxl_rest hxlnodup
    · rw [hms]
      exact h.nodup
    · rw [h5root, h.root_eq]
      exact aroot_aplug_fr sd2 g go k2 _ _
    · intro i
      rw [show ((load t5 i).isSome = true) = ((load t i).isSome = true) from
        by rw [h5some i], hms]
      exact h.alloc i


theorem load_isSome_lt {t : Tree α} {j : Nat} (h : (load t j).isSome = true) :
    j < t.nodes.length := by
  by_contra hc
  rw [load_getElem, List.getElem?_eq_none (by omega)] at h
  simp at h

theorem load_len_none (t : Tree α) : load t t.nodes.length = none := by
  rw [load_getElem, List.getElem?_eq_none (le_refl _)]
  rfl

theorem load_snoc (t : Tree α) (x : Option (Node α)) (j : Nat) :
    load { t with nodes := t.nodes ++ [x] } j =
      if j = t.nodes.length then x else load t j := by
  by_cases hj : j = t.nodes.length
  · subst hj
    rw [if_pos rfl, load_getElem]
    simp
  · rw [if_neg hj, load_getElem, load_getElem]
    by_cases hlt : j < t.nodes.length
    · rw [List.getElem?_append_left hlt]
    · rw [List.getElem?_eq_none (by omega : t.nodes.length ≤ j),
        List.getElem?_eq_none]
      simp only [List.length_append, List.length_cons, List.length_nil]
      omega

theorem allocData_snoc (t : Tree α) (nd : Node α) :
    allocData { t with nodes := t.nodes ++ [some nd] } = allocData t ++ [nd.data] := by
  simp [allocData]

theorem fresh_not_mem {t : Tree α} {k : ACtx} {s : ATree} (h : Loc t k s) :
    t.nodes.length ∉ mCtx k + mAddrs s := by
  intro hm
  have := (h.alloc _).mpr hm
  rw [load_len_none] at this
  simp at this

theorem aheight_le_addrs (s : ATree) : aheight s ≤ (addrs s).length := by
  induction s with
  | nil => simp [aheight, addrs]
  | node i l r ihl ihr =>
    simp only [aheight, addrs, List.length_cons, List.length_append]
    omega

theorem addrs_length_le {t : Tree α} {k : ACtx} {s : ATree} (h : Loc t k s) :
    (addrs s).length ≤ t.nodes.length := by
  have hsub : addrs s ⊆ List.range t.nodes.length := by
    intro j hj
    rw [List.mem_range]
    exact load_isSome_lt ((h.alloc j).mpr (by simp [mem_mAddrs, hj]))
  have hnd : (addrs s).Nodup := by
    have := h.nodup
    rw [Multiset.nodup_add] at this
    exact this.2.1
  have := (hnd.subperm hsub).length_le
  simpa using this

theorem aheight_lt_fuel {t : Tree α} {k : ACtx} {s : ATree} (h : Loc t k s) :
    aheight s ≤ t.nodes.length :=
  le_trans (aheight_le_addrs s) (addrs_length_le h)

theorem tree_insert_sim (cmp : α → α → Int) (v : α) :
    ∀ (fuel : Nat) (t : Tree α) (k : ACtx) (i : Nat) (l r : ATree),
      Loc t k (.node i l r) → aheight (.node i l r) ≤ fuel →
      ∃ t', tree_insert cmp true fuel t (some i) v = (t', some t.nodes.length) ∧
        Loc t' k (insA cmp v t t.nodes.length (.node i l r)) ∧
        absA t' (insA cmp v t t.nodes.length (.node i l r)) =
          insertCT cmp v (absA t (.node i l r)) ∧
        (∀ j, j ≠ t.nodes.length →
          (load t' j).map (fun n => (n.color, n.data)) =
            (load t j).map (fun n => (n.color, n.data))) ∧
        (∀ j, j ≠ t.nodes.length → (load t' j).isSome = (load t j).isSome) ∧
        (∃ pp, load t' t.nodes.length = some ⟨v, some pp, none, none, 'r'⟩) ∧
        t'.nodes.length = t.nodes.length + 1 ∧
        allocData t' = allocData t ++ [v] ∧
        t'.root = t.root := by
  intro fuel
  induction fuel with
  | zero =>
    intro t k i l r h hfuel
    simp [aheight] at hfuel
  | succ f ih =>
    intro t k i l r h hfuel
    obtain ⟨n, hload, hp, hl, hr⟩ := loc_load h
    obtain ⟨_, _, _, _, _, hal, har⟩ := agree_node_inv h.sub
    have hfresh : t.nodes.length ∉ mCtx k + mAddrs (ATree.node i l r) := fresh_not_mem h
    have hine : i ≠ t.nodes.length := by
      intro he
      exact hfresh (by rw [← he]; simp)
    by_cases hcmp : cmp v n.data < 0
    · cases l with
      | nil =>
        have hlc : n.lchild = none := by simpa [aroot] using hl
        set tN : Tree α := { t with nodes := t.nodes ++ [some (init_node v)] } with htN
        set nw : Nat := t.nodes.length with hnw
        set t' : Tree α := set_child tN (some i) (some nw) true with ht'
        have heq : tree_insert cmp true (f + 1) t (some i) v = (t', some nw) := by
          simp only [tree_insert, hload, if_pos hcmp, hlc, new_node, if_true]
        have hNload : ∀ j, j ≠ nw → load tN j = load t j := by
          intro j hj
          rw [htN, load_snoc, if_neg hj]
        have hNnw : load tN nw = some (init_node v) := by
          rw [htN, load_snoc, if_pos rfl]
        have h'i : load t' i = some { n with lchild := some nw } := by
          rw [ht', load_set_child_some]
          simp only [if_neg (show ¬((some nw : Option Nat) = some i) from
            fun he => hine (Option.some.inj he).symm), if_pos rfl]
          rw [hNload i hine, hload]
          simp
        have h'nw : load t' nw = some ⟨v, some i, none, none, 'r'⟩ := by
          rw [ht', load_set_child_some]
          simp only [if_pos rfl, if_neg (fun he : nw = i => hine he.symm)]
          rw [hNnw]
          rfl
        have h'rest : ∀ j, j ≠ i → j ≠ nw → load t' j = load t j := by
          intro j hji hjn
          rw [ht', load_set_child_some]
          simp only [if_neg (show ¬((some nw : Option Nat) = some j) from
            fun he => hjn (Option.some.inj he).symm), if_neg hji]
          exact hNload j hjn
        have h'root : t'.root = t.root := by
          rw [ht', set_child_some_root, htN]
        have h'len : t'.nodes.length = t.nodes.length + 1 := by
          rw [ht', set_child_length, htN]
          simp
        have hcd : ∀ j, j ≠ nw →
            (load t' j).map (fun n => (n.color, n.data)) =
              (load t j).map (fun n => (n.color, n.data)) := by
          intro j hjn
          by_cases hji : j = i
          · subst hji
            rw [h'i, hload]
            rfl
          · rw [h'rest j hji hjn]
        have hisome : ∀ j, j ≠ nw → (load t' j).isSome = (load t j).isSome := by
          intro j hjn
          by_cases hji : j = i
          · subst hji
            rw [h'i, hload]
            rfl
          · rw [h'rest j hji hjn]
        have hins : insA cmp v t nw (ATree.node i .nil r) =
            ATree.node i (ATree.node nw .nil .nil) r := by
          simp only [insA, hload, if_pos hcmp]
        have hr_un : ∀ j ∈ addrs r, load t' j = load t j := by
          intro j hj
          have hjm : j ∈ mAddrs r := mem_mAddrs.mpr hj
          have hji : j ≠ i := by
            intro he
            have := h.nodup
            rw [Multiset.nodup_add, mAddrs_node, Multiset.nodup_cons] at this
            exact this.2.1.1 (by rw [← he]; simp [hjm])
          have hjn : j ≠ nw := by
            intro he
            exact hfresh (by rw [← he]; simp [hjm])
          exact h'rest j hji hjn
        have hmnew : mCtx k + mAddrs (ATree.node i (ATree.node nw .nil .nil) r) =
            nw ::ₘ (mCtx k + mAddrs (ATree.node i .nil r)) := by
          simp only [mAddrs_node, mAddrs_nil, ← Multiset.singleton_add]
          abel
        have hLoc : Loc t' k (ATree.node i (ATree.node nw .nil .nil) r) := by
          refine ⟨?_, ?_, ?_, ?_, ?_⟩
          · exact agreeC_congr h.ctx (fun j hj => by
              have hjm : j ∈ mCtx k := by simp [mCtx]; exact hj
              have hji : j ≠ i := by
                intro he
                have := h.nodup
                rw [Multiset.nodup_add] at this
                exact Multiset.disjoint_left.mp this.2.2 hjm (by rw [← he]; simp)
              have hjn : j ≠ nw := fun he => hfresh (by rw [← he]; simp [hjm])
              exact h'rest j hji hjn)
          · refine .node _ h'i hp rfl hr ?_ (agree_congr har hr_un)
            exact .node _ h'nw rfl rfl rfl (.nil _) (.nil _)
          · rw [hmnew, Multiset.nodup_cons]
            exact ⟨hfresh, h.nodup⟩
          · rw [h'root, h.root_eq]
            exact aroot_aplug_congr k rfl
          · intro j
            rw [hmnew]
            by_cases hjn : j = nw
            · subst hjn
              rw [h'nw]
              simp
            · rw [show ((load t' j).isSome = true) = ((load t j).isSome = true) from
                by rw [hisome j hjn], Multiset.mem_cons]
              rw [h.alloc j]
              simp [hjn]
        refine ⟨t', heq, by rw [hins]; exact hLoc, ?_, hcd, hisome,
          ⟨i, h'nw⟩, h'len, ?_, h'root⟩
        · have hrabs : absA t' r = absA t r :=
            absA_congr_cd (fun j hj => hcd j (by
              intro he
              exact hfresh (by rw [← he]; simp [mem_mAddrs.mpr hj])))
          rw [hins, absA_node h'i, absA_node h'nw, hrabs, absA_node hload]
          simp [insertCT, hcmp, absA]
        · rw [ht']
          rw [allocData_eq_of_data (t := tN) (by rw [set_child_length]) (by
            intro j
            by_cases hji : j = i
            · rw [hji, h'i, hNload i hine, hload]
              rfl
            · by_cases hjn : j = nw
              · subst hjn
                rw [h'nw, hNnw]
                rfl
              · rw [h'rest j hji hjn, hNload j hjn])]
          rw [htN, allocData_snoc]
          rfl
      | node li ll lr =>
        have hlc : n.lchild = some li := by simpa [aroot] using hl
        have hzoom : Loc t (.fr true i r k) (ATree.node li ll lr) := loc_zoomL h
        have hfl : aheight (ATree.node li ll lr) ≤ f := by
          simp only [aheight] at hfuel ⊢
          omega
        obtain ⟨t', heq, hloc, habs, hcd, hsome, hnew, hlen, halloc, hroot⟩ :=
          ih t (.fr true i r k) li ll lr hzoom hfl
        have heq2 : tree_insert cmp true (f + 1) t (some i) v = (t', some t.nodes.length) := by
          simp only [tree_insert, hload, if_pos hcmp, hlc]
          exact heq
        have hins : insA cmp v t t.nodes.length (ATree.node i (ATree.node li ll lr) r) =
            ATree.node i (insA cmp v t t.nodes.length (ATree.node li ll lr)) r := by
          simp only [insA, hload, if_pos hcmp]
        have hine2 := hine
        obtain ⟨n', hn'load, hn'c, hn'd⟩ : ∃ n', load t' i = some n' ∧
            n'.color = n.color ∧ n'.data = n.data := by
          have := hcd i hine
          rw [hload] at this
          cases hld' : load t' i with
          | none => rw [hld'] at this; simp at this
          | some n' =>
            rw [hld'] at this
            simp only [Option.map_some', Option.some.injEq, Prod.mk.injEq] at this
            exact ⟨n', rfl, this.1, this.2⟩
        have hr_cd : absA t' r = absA t r := by
          refine absA_congr_cd (fun j hj => hcd j ?_)
          intro he
          exact hfresh (by rw [← he]; simp [mem_mAddrs.mpr hj])
        refine ⟨t', heq2, by rw [hins]; exact loc_unzoomL hloc, ?_, hcd, hsome,
          hnew, hlen, halloc, hroot⟩
        rw [hins, absA_node hn'load, hn'c, hn'd, habs, hr_cd,
          show absA t (ATree.node i (ATree.node li ll lr) r) =
            CT.node n.color (absA t (ATree.node li ll lr)) n.data (absA t r) from
            absA_node hload]
        simp [insertCT, hcmp]
    · cases r with
      | nil =>
        have hrc : n.rchild = none := by simpa [aroot] using hr
        set tN : Tree α := { t with nodes := t.nodes ++ [some (init_node v)] } with htN
        set nw : Nat := t.nodes.length with hnw
        set t' : Tree α := set_child tN (some i) (some nw) false with ht'
        have heq : tree_insert cmp true (f + 1) t (some i) v = (t', some nw) := by
          simp only [tree_insert, hload, if_neg hcmp, hrc, new_node, if_true]
        have hNload : ∀ j, j ≠ nw → load tN j = load t j := by
          intro j hj
          rw [htN, load_snoc, if_neg hj]
        have hNnw : load tN nw = some (init_node v) := by
          rw [htN, load_snoc, if_pos rfl]
        have h'i : load t' i = some { n with rchild := some nw } := by
          rw [ht', load_set_child_some]
          simp only [if_neg (show ¬((some nw : Option Nat) = some i) from
            fun he => hine (Option.some.inj he).symm), if_pos rfl]
          rw [hNload i hine, hload]
          simp
        have h'nw : load t' nw = some ⟨v, some i, none, none, 'r'⟩ := by
          rw [ht', load_set_child_some]
          simp only [if_pos rfl, if_neg (fun he : nw = i => hine he.symm)]
          rw [hNnw]
          rfl
        have h'rest : ∀ j, j ≠ i → j ≠ nw → load t' j = load t j := by
          intro j hji hjn
          rw [ht', load_set_child_some]
          simp only [if_neg (show ¬((some nw : Option Nat) = some j) from
            fun he => hjn (Option.some.inj he).symm), if_neg hji]
          exact hNload j hjn
        have h'root : t'.root = t.root := by
          rw [ht', set_child_some_root, htN]
        have h'len : t'.nodes.length = t.nodes.length + 1 := by
          rw [ht', set_child_length, htN]
          simp
        have hcd : ∀ j, j ≠ nw →
            (load t' j).map (fun n => (n.color, n.data)) =
              (load t j).map (fun n => (n.color, n.data)) := by
          intro j hjn
          by_cases hji : j = i
          · subst hji
            rw [h'i, hload]
            rfl
          · rw [h'rest j hji hjn]
        have hisome : ∀ j, j ≠ nw → (load t' j).isSome = (load t j).isSome := by
          intro j hjn
          by_cases hji : j = i
          · subst hji
            rw [h'i, hload]
            rfl
          · rw [h'rest j hji hjn]
        have hins : insA cmp v t nw (ATree.node i l .nil) =
            ATree.node i l (ATree.node nw .nil .nil) := by
          simp only [insA, hload, if_neg hcmp]
        have hl_un : ∀ j ∈ addrs l, load t' j = load t j := by
          intro j hj
          have hjm : j ∈ mAddrs l := mem_mAddrs.mpr hj
          have hji : j ≠ i := by
            intro he
            have := h.nodup
            rw [Multiset.nodup_add, mAddrs_node, Multiset.nodup_cons] at this
            exact this.2.1.1 (by rw [← he]; simp [hjm])
          have hjn : j ≠ nw := by
            intro he
            exact hfresh (by rw [← he]; simp [hjm])
          exact h'rest j hji hjn
        have hmnew : mCtx k + mAddrs (ATree.node i l (ATree.node nw .nil .nil)) =
            nw ::ₘ (mCtx k + mAddrs (ATree.node i l .nil)) := by
          simp only [mAddrs_node, mAddrs_nil, ← Multiset.singleton_add]
          abel
        have hLoc : Loc t' k (ATree.node i l (ATree.node nw .nil .nil)) := by
          refine ⟨?_, ?_, ?_, ?_, ?_⟩
          · exact agreeC_congr h.ctx (fun j hj => by
              have hjm : j ∈ mCtx k := by simp [mCtx]; exact hj
              have hji : j ≠ i := by
                intro he
                have := h.nodup
                rw [Multiset.nodup_add] at this
                exact Multiset.disjoint_left.mp this.2.2 hjm (by rw [← he]; simp)
              have hjn : j ≠ nw := fun he => hfresh (by rw [← he]; simp [hjm])
              exact h'rest j hji hjn)
          · refine .node _ h'i hp hl rfl (agree_congr hal hl_un) ?_
            exact .node _ h'nw rfl rfl rfl (.nil _) (.nil _)
          · rw [hmnew, Multiset.nodup_cons]
            exact ⟨hfresh, h.nodup⟩
          · rw [h'root, h.root_eq]
            exact aroot_aplug_congr k rfl
          · intro j
            rw [hmnew]
            by_cases hjn : j = nw
            · subst hjn
              rw [h'nw]
              simp
            · rw [show ((load t' j).isSome = true) = ((load t j).isSome = true) from
                by rw [hisome j hjn], Multiset.mem_cons]
              rw [h.alloc j]
              simp [hjn]
        refine ⟨t', heq, by rw [hins]; exact hLoc, ?_, hcd, hisome,
          ⟨i, h'nw⟩, h'len, ?_, h'root⟩
        · have hlabs : absA t' l = absA t l :=
            absA_congr_cd (fun j hj => hcd j (by
              intro he
              exact hfresh (by rw [← he]; simp [mem_mAddrs.mpr hj])))
          rw [hins, absA_node h'i, absA_node h'nw, hlabs, absA_node hload]
          simp [insertCT, hcmp, absA]
        · rw [ht']
          rw [allocData_eq_of_data (t := tN) (by rw [set_child_length]) (by
            intro j
            by_cases hji : j = i
            · rw [hji, h'i, hNload i hine, hload]
              rfl
            · by_cases hjn : j = nw
              · subst hjn
                rw [h'nw, hNnw]
                rfl
              · rw [h'rest j hji hjn, hNload j hjn])]
          rw [htN, allocData_snoc]
          rfl
      | node ri rl rr =>
        have hrc : n.rchild = some ri := by simpa [aroot] using hr
        have hzoom : Loc t (.fr false i l k) (ATree.node ri rl rr) := loc_zoomR h
        have hfr : aheight (ATree.node ri rl rr) ≤ f := by
          simp only [aheight] at hfuel ⊢
          omega
        obtain ⟨t', heq, hloc, habs, hcd, hsome, hnew, hlen, halloc, hroot⟩ :=
          ih t (.fr false i l k) ri rl rr hzoom hfr
        have heq2 : tree_insert cmp true (f + 1) t (some i) v = (t', some t.nodes.length) := by
          simp only [tree_insert, hload, if_neg hcmp, hrc]
          exact heq
        have hins : insA cmp v t t.nodes.length (ATree.node i l (ATree.node ri rl rr)) =
            ATree.node i l (insA cmp v t t.nodes.length (ATree.node ri rl rr)) := by
          simp only [insA, hload, if_neg hcmp]
        obtain ⟨n', hn'load, hn'c, hn'd⟩ : ∃ n', load t' i = some n' ∧
            n'.color = n.color ∧ n'.data = n.data := by
          have := hcd i hine
          rw [hload] at this
          cases hld' : load t' i with
          | none => rw [hld'] at this; simp at this
          | some n' =>
            rw [hld'] at this
            simp only [Option.map_some', Option.some.injEq, Prod.mk.injEq] at this
            exact ⟨n', rfl, this.1, this.2⟩
        have hl_cd : absA t' l = absA t l := by
          refine absA_congr_cd (fun j hj => hcd j ?_)
          intro he
          exact hfresh (by rw [← he]; simp [mem_mAddrs.mpr hj])
        refine ⟨t', heq2, by rw [hins]; exact loc_unzoomR hloc, ?_, hcd, hsome,
          hnew, hlen, halloc, hroot⟩
        rw [hins, absA_node hn'load, hn'c, hn'd, habs, hl_cd,
          show absA t (ATree.node i l (ATree.node ri rl rr)) =
            CT.node n.color (absA t l) n.data (absA t (ATree.node ri rl rr)) from
            absA_node hload]
        simp [insertCT, hcmp]


theorem WfM_init : WfM (rbtree_init : Tree α) .nil := by
  refine ⟨AgreeC.top none, Agree.nil none, ?_, rfl, ?_⟩
  · simp [mCtx, mAddrs, ctxAddrs, addrs]
  · intro i
    simp [mCtx, mAddrs, ctxAddrs, addrs, load, rbtree_init]

/-- C5: `tree_insert` walks down from the root, descending left when the
new record compares strictly less than the current node's record and
right on greater-or-equal (the abstract walk `insertCT`), and attaches
the node built by `init_node` — initial color red, with absent parent,
left-child and right-child links — at the leaf position reached, linked
to a parent; on an empty tree the new red node becomes the root. -/
theorem C5_insert_walk (cmp : α → α → Int) (v : α) (t : Tree α) (a : ATree)
    (hw : WfM t a) :
    init_node v = { data := v, parent := none, lchild := none,
                    rchild := none, color := 'r' } ∧
    (a = .nil →
      tree_insert cmp true (t.nodes.length + 1) t t.root v =
        ({ t with nodes := t.nodes ++ [some (init_node v)],
                  root := some t.nodes.length }, some t.nodes.length)) ∧
    (∀ i l r, a = .node i l r →
      ∃ t', tree_insert cmp true (t.nodes.length + 1) t t.root v =
          (t', some t.nodes.length) ∧
        WfM t' (insA cmp v t t.nodes.length a) ∧
        absA t' (insA cmp v t t.nodes.length a) =
          insertCT cmp v (absA t a) ∧
        (∃ pp, load t' t.nodes.length =
          some { data := v, parent := some pp, lchild := none,
                 rchild := none, color := 'r' }) ∧
        t'.nodes.length = t.nodes.length + 1 ∧
        allocData t' = allocData t ++ [v] ∧
        t'.root = t.root) := by
  refine ⟨rfl, ?_, ?_⟩
  · intro ha
    subst ha
    have hroot : t.root = none := hw.root_eq
    rw [hroot]
    simp [tree_insert, new_node]
  · intro i l r ha
    subst ha
    have hroot : t.root = some i := hw.root_eq
    rw [hroot]
    obtain ⟨t', heq, hloc, habs, _, _, hnew, hlen, halloc, hroot2⟩ :=
      tree_insert_sim cmp v (t.nodes.length + 1) t .top i l r hw
        (le_trans (aheight_lt_fuel hw) (Nat.le_succ _))
    exact ⟨t', heq, hloc, habs, hnew, hlen, halloc, hroot2.trans hroot⟩

theorem C5_insert_walk_witness :
    WfM (rbtree_init : Tree Nat) ATree.nil ∧
    tree_insert (fun (a b : Nat) => (a : Int) - (b : Int)) true 1
        (rbtree_init : Tree Nat) none 0 =
      ({ nodes := [some (init_node 0)], root := some 0 }, some 0) :=
  ⟨WfM_init,
    (C5_insert_walk (fun (a b : Nat) => (a : Int) - (b : Int)) 0 rbtree_init
      ATree.nil WfM_init).2.1 rfl⟩

theorem nodup_cons2_ne {x p : Nat} {N : Multiset Nat}
    (h : Multiset.Nodup (x ::ₘ p ::ₘ N)) : ∀ j ∈ N, j ≠ x ∧ j ≠ p := by
  rw [Multiset.nodup_cons, Multiset.nodup_cons] at h
  exact fun j hj => ⟨fun he => h.1 (by rw [← he]; simp [hj]),
    fun he => h.2.1 (he ▸ hj)⟩

theorem inorder_plugC (K : CtxC α) (S : CT α) :
    inorder (plugC K S) = beforeC K ++ inorder S ++ afterC K := by
  induction K generalizing S with
  | top => simp [plugC, beforeC, afterC]
  | fr sd c d o k ih =>
    cases sd with
    | true =>
      show inorder (plugC k (.node c S d o)) = _
      rw [ih]
      simp [inorder, beforeC, afterC]
    | false =>
      show inorder (plugC k (.node c o d S)) = _
      rw [ih]
      simp [inorder, beforeC, afterC]

theorem bhOk_plugC_congr {S1 S2 : CT α} (K : CtxC α) (h : bhOk S1 = bhOk S2) :
    bhOk (plugC K S1) = bhOk (plugC K S2) := by
  induction K generalizing S1 S2 with
  | top => exact h
  | fr sd c d o k ih =>
    cases sd with
    | true =>
      show bhOk (plugC k (.node c S1 d o)) = bhOk (plugC k (.node c S2 d o))
      exact ih (by simp [bhOk, h])
    | false =>
      show bhOk (plugC k (.node c o d S1)) = bhOk (plugC k (.node c o d S2))
      exact ih (by simp [bhOk, h])

theorem bhOk_rotL (c : Char) (a b : α) (L R P : CT α) :
    bhOk (.node c L a (.node 'r' R b P)) = bhOk (.node c (.node 'r' L a R) b P) := by
  cases hL : bhOk L <;> cases hR : bhOk R <;> cases hP : bhOk P <;>
    simp [bhOk, hL, hR, hP] <;> split_ifs <;> simp_all

theorem rotateUp_absL {t : Tree α} {k : ACtx} {K : CtxC α} {p x : Nat}
    {xl xr pr : ATree} {pn xn : Node α}
    (h : Loc t k (.node p (.node x xl xr) pr))
    (hpl : load t p = some pn) (hxld : load t x = some xn) (hK : AbsC t k K) :
    Loc (rotateUp t (some x)) k (.node x xl (.node p xr pr)) ∧
    AbsC (rotateUp t (some x)) k K ∧
    absA t (.node p (.node x xl xr) pr) =
      .node pn.color (.node xn.color (absA t xl) xn.data (absA t xr)) pn.data
        (absA t pr) ∧
    absA (rotateUp t (some x)) (.node x xl (.node p xr pr)) =
      .node pn.color (absA t xl) xn.data
        (.node xn.color (absA t xr) pn.data (absA t pr)) ∧
    (load (rotateUp t (some x)) x).map Node.color = some pn.color ∧
    (load (rotateUp t (some x)) p).map Node.color = some xn.color := by
  obtain ⟨hLoc, hdata, hsome, hcd, hx2, hp2, hlen, hrest⟩ := rotateUp_simL h hpl hxld
  have hM : mCtx k + mAddrs (ATree.node p (ATree.node x xl xr) pr) =
      x ::ₘ p ::ₘ (mCtx k + (mAddrs xl + mAddrs xr + mAddrs pr)) := by
    simp only [mAddrs_node, ← Multiset.singleton_add]
    abel
  have hne := nodup_cons2_ne (by rw [← hM]; exact h.nodup)
  have hne2 : ∀ j, j ∈ mCtx k ∨ j ∈ mAddrs xl ∨ j ∈ mAddrs xr ∨ j ∈ mAddrs pr →
      j ≠ x ∧ j ≠ p := by
    intro j hj
    refine hne j ?_
    rcases hj with h1 | h1 | h1 | h1 <;> simp [h1]
  have hxl2 : absA (rotateUp t (some x)) xl = absA t xl :=
    absA_congr_cd (fun j hj =>
      hcd j (hne2 j (Or.inr (Or.inl (mem_mAddrs.mpr hj)))).1
        (hne2 j (Or.inr (Or.inl (mem_mAddrs.mpr hj)))).2)
  have hxr2 : absA (rotateUp t (some x)) xr = absA t xr :=
    absA_congr_cd (fun j hj =>
      hcd j (hne2 j (Or.inr (Or.inr (Or.inl (mem_mAddrs.mpr hj))))).1
        (hne2 j (Or.inr (Or.inr (Or.inl (mem_mAddrs.mpr hj))))).2)
  have hpr2 : absA (rotateUp t (some x)) pr = absA t pr :=
    absA_congr_cd (fun j hj =>
      hcd j (hne2 j (Or.inr (Or.inr (Or.inr (mem_mAddrs.mpr hj))))).1
        (hne2 j (Or.inr (Or.inr (Or.inr (mem_mAddrs.mpr hj))))).2)
  refine ⟨hLoc, ?_, ?_, ?_, ?_, ?_⟩
  · refine absC_congr_cd hK (fun j hj => ?_)
    have hjm : j ∈ mCtx k := by simp [mCtx]; exact hj
    exact hcd j (hne2 j (Or.inl hjm)).1 (hne2 j (Or.inl hjm)).2
  · rw [absA_node hpl, absA_node hxld]
  · rw [absA_node hx2, absA_node hp2, hxl2, hxr2, hpr2]
  · rw [hx2]
    rfl
  · rw [hp2]
    rfl

theorem rotateUp_absR {t : Tree α} {k : ACtx} {K : CtxC α} {p x : Nat}
    {pl xl xr : ATree} {pn xn : Node α}
    (h : Loc t k (.node p pl (.node x xl xr)))
    (hpl : load t p = some pn) (hxld : load t x = some xn) (hK : AbsC t k K) :
    Loc (rotateUp t (some x)) k (.node x (.node p pl xl) xr) ∧
    AbsC (rotateUp t (some x)) k K ∧
    absA t (.node p pl (.node x xl xr)) =
      .node pn.color (absA t pl) pn.data
        (.node xn.color (absA t xl) xn.data (absA t xr)) ∧
    absA (rotateUp t (some x)) (.node x (.node p pl xl) xr) =
      .node pn.color (.node xn.color (absA t pl) pn.data (absA t xl)) xn.data
        (absA t xr) ∧
    (load (rotateUp t (some x)) x).map Node.color = some pn.color ∧
    (load (rotateUp t (some x)) p).map Node.color = some xn.color := by
  obtain ⟨hLoc, hdata, hsome, hcd, hx2, hp2, hlen, hrest⟩ := rotateUp_simR h hpl hxld
  have hM : mCtx k + mAddrs (ATree.node p pl (ATree.node x xl xr)) =
      x ::ₘ p ::ₘ (mCtx k + (mAddrs pl + mAddrs xl + mAddrs xr)) := by
    simp only [mAddrs_node, ← Multiset.singleton_add]
    abel
  have hne := nodup_cons2_ne (by rw [← hM]; exact h.nodup)
  have hne2 : ∀ j, j ∈ mCtx k ∨ j ∈ mAddrs pl ∨ j ∈ mAddrs xl ∨ j ∈ mAddrs xr →
      j ≠ x ∧ j ≠ p := by
    intro j hj
    refine hne j ?_
    rcases hj with h1 | h1 | h1 | h1 <;> simp [h1]
  have hpl2 : absA (rotateUp t (some x)) pl = absA t pl :=
    absA_congr_cd (fun j hj =>
      hcd j (hne2 j (Or.inr (Or.inl (mem_mAddrs.mpr hj)))).1
        (hne2 j (Or.inr (Or.inl (mem_mAddrs.mpr hj)))).2)
  have hxl2 : absA (rotateUp t (some x)) xl = absA t xl :=
    absA_congr_cd (fun j hj =>
      hcd j (hne2 j (Or.inr (Or.inr (Or.inl (mem_mAddrs.mpr hj))))).1
        (hne2 j (Or.inr (Or.inr (Or.inl (mem_mAddrs.mpr hj))))).2)
  have hxr2 : absA (rotateUp t (some x)) xr = absA t xr :=
    absA_congr_cd (fun j hj =>
      hcd j (hne2 j (Or.inr (Or.inr (Or.inr (mem_mAddrs.mpr hj))))).1
        (hne2 j (Or.inr (Or.inr (Or.inr (mem_mAddrs.mpr hj))))).2)
  refine ⟨hLoc, ?_, ?_, ?_, ?_, ?_⟩
  · refine absC_congr_cd hK (fun j hj => ?_)
    have hjm : j ∈ mCtx k := by simp [mCtx]; exact hj
    exact hcd j (hne2 j (Or.inl hjm)).1 (hne2 j (Or.inl hjm)).2
  · rw [absA_node hpl, absA_node hxld]
  · rw [absA_node hx2, absA_node hp2, hpl2, hxl2, hxr2]
  · rw [hx2]
    rfl
  · rw [hp2]
    rfl

theorem exTreeC3_loc : Loc exTreeC3 .top
    (.node 0 (.node 1 (.node 2 .nil .nil) (.node 3 .nil .nil))
      (.node 4 .nil .nil)) := by
  refine ⟨.top _, ?_, by decide, rfl, ?_⟩
  · exact .node _ rfl rfl rfl rfl
      (.node _ rfl rfl rfl rfl
        (.node _ rfl rfl rfl rfl (.nil _) (.nil _))
        (.node _ rfl rfl rfl rfl (.nil _) (.nil _)))
      (.node _ rfl rfl rfl rfl (.nil _) (.nil _))
  · intro i
    match i with
    | 0 => decide
    | 1 => decide
    | 2 => decide
    | 3 => decide
    | 4 => decide
    | n + 5 =>
      have hnone : load exTreeC3 (n + 5) = none := by
        rw [load_getElem, List.getElem?_eq_none (by simp [exTreeC3])]
        rfl
      rw [hnone]
      constructor
      · intro hc
        simp at hc
      · intro hc
        simp [mCtx, mAddrs, ctxAddrs, addrs] at hc

/-- C3 (corrected): for a well-formed tree and a node `x` with parent
`p`, `rotate_up` preserves the in-order traversal sequence of the whole
tree, and the colors of `x` and its former parent are swapped before
the structural rotation; but the black-height of the overall tree is
preserved only when the rotated node `x` is red (the original claim's
"never changes the black-height" fails for a black `x`, see the
counterexample). -/
theorem C3_rotate_up (t : Tree α) (k : ACtx) (p x : Nat)
    (xl xr pl pr : ATree) (pn xn : Node α)
    (hpl : load t p = some pn) (hxld : load t x = some xn) :
    (Loc t k (.node p (.node x xl xr) pr) →
      inorder (absA (rotateUp t (some x))
          (aplug k (.node x xl (.node p xr pr)))) =
        inorder (absA t (aplug k (.node p (.node x xl xr) pr))) ∧
      Loc (rotateUp t (some x)) k (.node x xl (.node p xr pr)) ∧
      (load (rotateUp t (some x)) x).map Node.color = some pn.color ∧
      (load (rotateUp t (some x)) p).map Node.color = some xn.color ∧
      (xn.color = 'r' →
        bhOk (absA (rotateUp t (some x))
            (aplug k (.node x xl (.node p xr pr)))) =
          bhOk (absA t (aplug k (.node p (.node x xl xr) pr))))) ∧
    (Loc t k (.node p pl (.node x xl xr)) →
      inorder (absA (rotateUp t (some x))
          (aplug k (.node x (.node p pl xl) xr))) =
        inorder (absA t (aplug k (.node p pl (.node x xl xr)))) ∧
      Loc (rotateUp t (some x)) k (.node x (.node p pl xl) xr) ∧
      (load (rotateUp t (some x)) x).map Node.color = some pn.color ∧
      (load (rotateUp t (some x)) p).map Node.color = some xn.color ∧
      (xn.color = 'r' →
        bhOk (absA (rotateUp t (some x))
            (aplug k (.node x (.node p pl xl) xr))) =
          bhOk (absA t (aplug k (.node p pl (.node x xl xr)))))) := by
  constructor
  · intro h
    obtain ⟨K, hK⟩ := absC_exists h.ctx
    obtain ⟨hLoc, hKC, hS, hS2, hcx, hcp⟩ := rotateUp_absL h hpl hxld hK
    refine ⟨?_, hLoc, hcx, hcp, ?_⟩
    · rw [absA_aplug hKC, absA_aplug hK, inorder_plugC, inorder_plugC, hS, hS2]
      simp [inorder]
    · intro hred
      rw [absA_aplug hKC, absA_aplug hK, hS, hS2]
      refine bhOk_plugC_congr K ?_
      rw [hred]
      exact bhOk_rotL pn.color xn.data pn.data (absA t xl) (absA t xr) (absA t pr)
  · intro h
    obtain ⟨K, hK⟩ := absC_exists h.ctx
    obtain ⟨hLoc, hKC, hS, hS2, hcx, hcp⟩ := rotateUp_absR h hpl hxld hK
    refine ⟨?_, hLoc, hcx, hcp, ?_⟩
    · rw [absA_aplug hKC, absA_aplug hK, inorder_plugC, inorder_plugC, hS, hS2]
      simp [inorder]
    · intro hred
      rw [absA_aplug hKC, absA_aplug hK, hS, hS2]
      refine bhOk_plugC_congr K ?_
      rw [hred]
      exact (bhOk_rotL pn.color pn.data xn.data (absA t pl) (absA t xl)
        (absA t xr)).symm

theorem C3_rotate_up_witness :
    load exTreeC3 0 = some ⟨3, none, some 1, some 4, 'b'⟩ ∧
    load exTreeC3 1 = some ⟨1, some 0, some 2, some 3, 'r'⟩ ∧
    inorder (absA (rotateUp exTreeC3 (some 1))
        (aplug .top (.node 1 (.node 2 .nil .nil)
          (.node 0 (.node 3 .nil .nil) (.node 4 .nil .nil))))) =
      inorder (absA exTreeC3
        (aplug .top (.node 0 (.node 1 (.node 2 .nil .nil) (.node 3 .nil .nil))
          (.node 4 .nil .nil)))) :=
  ⟨rfl, rfl,
    ((C3_rotate_up exTreeC3 ACtx.top 0 1 (.node 2 .nil .nil) (.node 3 .nil .nil)
      .nil (.node 4 .nil .nil) ⟨3, none, some 1, some 4, 'b'⟩
      ⟨1, some 0, some 2, some 3, 'r'⟩ rfl rfl).1 exTreeC3_loc).1⟩

end RBT
